import Mathlib

/-!
Verification of the Prime Dictation AWS Lambda email-sender against its
specification.  JavaScript strings are modelled as `List Char` (`Str`), byte
buffers as `List Nat` (each entry < 256), and the S3/SES collaborators as a
record of pure oracle functions.  All definitions are translated from
`src/lambdas/pd-email-sender/index.mjs` (the authenticated variant at lines
624-899 and the raw-attachment variant at lines 119-475) and from
`src/shared/src/index.js`.
-/

set_option maxRecDepth 200000
set_option maxHeartbeats 1000000

/-- Strings of the JavaScript source are modelled as lists of characters. -/
abbrev Str := List Char

/-- Converts a Lean string literal to the `Str` model. -/
def lit (s : String) : Str := s.data

/-- The CRLF line terminator used throughout the MIME builder. -/
def crlf : Str := ['\r', '\n']

/-- Mirrors the JavaScript array join with a separator string. -/
def joinSep (sep : Str) : List Str → Str
  | [] => []
  | [x] => x
  | x :: xs => x ++ sep ++ joinSep sep xs

/-- Constant `MB = 1024 * 1024` from index.mjs line 659. -/
def MB : Nat := 1024 * 1024

/-- Constant `SES_MAX_BYTES = 10 * MB` from index.mjs line 661. -/
def SES_MAX_BYTES : Nat := 10 * MB

/-- Constant `MIME_OVERHEAD_BYTES = 48 * 1024` from index.mjs line 662. -/
def MIME_OVERHEAD_BYTES : Nat := 48 * 1024

/-- An asset reference paired with its resolved metadata
(`{ key, label, size, contentType }` built at index.mjs lines 681-687). -/
structure AssetMeta where
  key : Str
  label : Str
  size : Nat
  contentType : Str
deriving DecidableEq

/-- A presigned download link `{ label, key, url }` (index.mjs line 739). -/
structure DownloadLink where
  label : Str
  key : Str
  url : Str
deriving DecidableEq

/-- Embeds `filenameFromKey` (index.mjs line 787): the substring after the
last `/`, or the whole key when no `/` occurs.  Taking the longest
slash-free suffix computes exactly `key.slice(key.lastIndexOf("/") + 1)`. -/
def filenameFromKey (key : Str) : Str :=
  (key.reverse.takeWhile (fun c => c ≠ '/')).reverse

/-- Embeds `inferContentType` (index.mjs lines 788-796). -/
def inferContentType (key : Str) : Str :=
  let lower := key.map Char.toLower
  if (lit ".m4a").isSuffixOf lower then lit "audio/mp4"
  else if (lit ".mp3").isSuffixOf lower then lit "audio/mpeg"
  else if (lit ".wav").isSuffixOf lower then lit "audio/wav"
  else if (lit ".txt").isSuffixOf lower then lit "text/plain; charset=UTF-8"
  else if (lit ".json").isSuffixOf lower then lit "application/json"
  else lit "application/octet-stream"

/-- Embeds `fitsSesLimitWhenBase64` (index.mjs lines 802-806):
`total = Σ ceil(size/3)*4`, result `total + MIME_OVERHEAD_BYTES < SES_MAX_BYTES`.
`Math.ceil(size/3)` on a natural number is `(size + 2) / 3`. -/
def fitsSesLimitWhenBase64 (metaList : List AssetMeta) : Bool :=
  let total := metaList.foldl (fun t m => t + (m.size + 2) / 3 * 4) 0
  decide (total + MIME_OVERHEAD_BYTES < SES_MAX_BYTES)

/-- Embeds the attach-vs-link decision of the handler (index.mjs lines
690-700): `totalBytes = (recordingMeta?.size || 0) + (transcriptionMeta?.size || 0)`
and `wantAttachments = recordingMeta && totalBytes <= ATTACH_LIMIT_MB * MB &&
fitsSesLimitWhenBase64(meta)`.  `ATTACH_LIMIT_MB` is the configured limit. -/
def wantAttachments (attachLimitMB : Nat) (meta : List AssetMeta) : Bool :=
  let recordingMeta := meta.find? (fun m => m.label == lit "Recording")
  let transcriptionMeta := meta.find? (fun m => m.label == lit "Transcription")
  let totalBytes := (recordingMeta.map AssetMeta.size).getD 0 +
    (transcriptionMeta.map AssetMeta.size).getD 0
  recordingMeta.isSome && decide (totalBytes ≤ attachLimitMB * MB) &&
    fitsSesLimitWhenBase64 meta

/-- Error kinds thrown or returned by the handler, with the
status codes the source attaches to them. -/
inductive HErr where
  | unauthorized
  | missingToEmail
  | forbiddenKey (key : Str)
  | invalidKey (key : Str)
  | assetNotFound (key : Str)
  | getFailed (key : Str)
deriving DecidableEq

/-- Status code attached to a key-validation error by `validateKeyPrefix`
(index.mjs lines 777 and 783: `e.statusCode = 403` / `e.statusCode = 400`). -/
def keyErrStatus : HErr → Nat
  | .forbiddenKey _ => 403
  | .invalidKey _ => 400
  | _ => 500

/-- Embeds `validateKeyPrefix` (index.mjs lines 773-785).  When
`REQUIRE_UID_PREFIX === "1"` the key must start with `users/<uid>/`
(403 on failure); otherwise it must start with the recordings or
transcriptions prefix (400 on failure).  The function is pure: it reads
only its arguments and returns a value or an error. -/
def validateKeyPrefix (requireUidPrefix : Bool) (recPfx trPfx : Str)
    (key uid : Str) : Except HErr Unit :=
  if requireUidPrefix then
    if (lit "users/" ++ uid ++ lit "/").isPrefixOf key then .ok ()
    else .error (.forbiddenKey key)
  else if recPfx.isPrefixOf key || trPfx.isPrefixOf key then .ok ()
  else .error (.invalidKey key)

/-! ## Base64 (Node `Buffer.toString("base64")`) and line folding -/

/-- The base64 alphabet. -/
def b64Alphabet : Str :=
  lit "ABCDEFGHIJKLMNOPQRSTUVWXYZabcdefghijklmnopqrstuvwxyz0123456789+/"

/-- The base64 digit for a 6-bit value. -/
def b64Char (n : Nat) : Char := b64Alphabet.getD n 'A'

/-- Standard base64 of a byte list, with `=` padding, as produced by
`att.data.toString("base64")` (index.mjs line 877). -/
def base64Encode : List Nat → Str
  | [] => []
  | [b0] => [b64Char (b0 / 4), b64Char (b0 % 4 * 16), '=', '=']
  | [b0, b1] => [b64Char (b0 / 4), b64Char (b0 % 4 * 16 + b1 / 16),
      b64Char (b1 % 16 * 4), '=']
  | b0 :: b1 :: b2 :: rest =>
      b64Char (b0 / 4) :: b64Char (b0 % 4 * 16 + b1 / 16) ::
      b64Char (b1 % 16 * 4 + b2 / 64) :: b64Char (b2 % 64) ::
      base64Encode rest

/-- Value of a base64 digit, `none` for characters outside the alphabet. -/
def b64Val (c : Char) : Option Nat :=
  (List.range 64).find? (fun n => b64Alphabet.getD n ' ' = c)

/-- Base64 decoding in 4-character groups with `=` padding, `none` on
malformed input.  Part of the reference MIME parser. -/
def base64Decode : Str → Option (List Nat)
  | [] => some []
  | c0 :: c1 :: c2 :: c3 :: rest =>
    if c2 = '=' then
      if c3 = '=' ∧ rest = [] then do
        let v0 ← b64Val c0
        let v1 ← b64Val c1
        pure [v0 * 4 + v1 / 16]
      else none
    else if c3 = '=' then
      if rest = [] then do
        let v0 ← b64Val c0
        let v1 ← b64Val c1
        let v2 ← b64Val c2
        pure [v0 * 4 + v1 / 16, v1 % 16 * 16 + v2 / 4]
      else none
    else do
      let v0 ← b64Val c0
      let v1 ← b64Val c1
      let v2 ← b64Val c2
      let v3 ← b64Val c3
      let bs ← base64Decode rest
      pure ((v0 * 4 + v1 / 16) :: (v1 % 16 * 16 + v2 / 4) :: (v2 % 4 * 64 + v3) :: bs)
  | _ => none

/-- The list of at-most-76-character slices taken by `chunk76`
(index.mjs line 894): `for (i = 0; i < str.length; i += 76) out.push(str.slice(i, i+76))`.
The `Nat` fuel bounds the iteration count; `fuel = s.length` always
suffices because each step consumes at least one character. -/
def chunk76Aux : Nat → Str → List Str
  | _, [] => []
  | 0, s => [s]
  | Nat.succ fuel, s => s.take 76 :: chunk76Aux fuel (s.drop 76)

/-- Embeds `chunk76` (index.mjs line 894): the slices joined with CRLF. -/
def chunk76 (s : Str) : Str := joinSep crlf (chunk76Aux s.length s)

/-! ## HTML escaping and email body renderers -/

/-- One global single-character `String.replace` pass, as used by
`escapeHtml` (index.mjs line 856). -/
def replaceAllChar (c : Char) (rep : Str) (s : Str) : Str :=
  s.flatMap (fun x => if x = c then rep else [x])

/-- Embeds `escapeHtml` (index.mjs line 856 and shared/src/index.js lines
31-38): five successive global replacements. -/
def escapeHtml (s : Str) : Str :=
  replaceAllChar '\'' (lit "&#039;")
    (replaceAllChar '"' (lit "&quot;")
      (replaceAllChar '>' (lit "&gt;")
        (replaceAllChar '<' (lit "&lt;")
          (replaceAllChar '&' (lit "&amp;") s))))

/-- Character-wise escaping; `escapeHtml` is proved equal to
`flatMap escChar`. -/
def escChar (c : Char) : Str :=
  if c = '&' then lit "&amp;"
  else if c = '<' then lit "&lt;"
  else if c = '>' then lit "&gt;"
  else if c = '"' then lit "&quot;"
  else if c = '\'' then lit "&#039;"
  else [c]

/-- One link block of `renderEmailHtml` (index.mjs lines 810-821). -/
def linkBlockHtml (l : DownloadLink) : Str :=
  let name := escapeHtml (if l.label = [] then lit "Download" else l.label)
  let url := escapeHtml l.url
  let file := escapeHtml (filenameFromKey l.key)
  lit "\n      <tr>\n        <td style=\"padding:8px 0;\">\n          <div style=\"font-size:14px;color:#444;margin-bottom:6px;\"><strong>" ++
  name ++ lit "</strong> — " ++ file ++
  lit "</div>\n          <a href=\"" ++ url ++
  lit "\" style=\"display:inline-block;padding:10px 14px;text-decoration:none;background:#2563eb;color:#fff;border-radius:8px;font-size:14px;\" target=\"_blank\" rel=\"noopener\">Download</a>\n        </td>\n      </tr>"

/-- Embeds `renderEmailHtml` (index.mjs lines 809-843).  The impure
`new Date().getFullYear()` is modelled by the `currentYear` argument. -/
def renderEmailHtml (links : List DownloadLink) (hasAttachments : Bool)
    (currentYear : Str) : Str :=
  let linkBlocks := (links.map linkBlockHtml).flatten
  let footer :=
    if hasAttachments then
      lit "<p style=\"margin:10px 0 0 0;font-size:14px;color:#6b7280;\">Files are attached to this email.</p>"
    else
      lit "<p style=\"margin:10px 0 0 0;font-size:12px;color:#6b7280;\">If a link expires, resend from the app to generate a fresh one.</p>"
  lit "<!doctype html>\n<html><head><meta charset=\"utf-8\"><meta name=\"viewport\" content=\"width=device-width,initial-scale=1\"><title>Prime Dictation</title></head>\n<body style=\"margin:0;padding:0;background:#f6f8fc;\">\n  <table role=\"presentation\" cellspacing=\"0\" cellpadding=\"0\" border=\"0\" width=\"100%\">\n    <tr><td align=\"center\" style=\"padding:24px;\">\n      <table role=\"presentation\" width=\"100%\" style=\"max-width:560px;background:#fff;border-radius:14px;padding:24px;border:1px solid #e5e7eb;\">\n        <tr><td>\n          <h1 style=\"margin:0 0 10px 0;font-size:20px;line-height:1.3;color:#111827;\">Your Prime Dictation files are ready</h1>\n          " ++
  (if links.length ≠ 0 then
      lit "<table role=\"presentation\" width=\"100%\" style=\"margin-top:8px;\">" ++
      linkBlocks ++ lit "</table>"
    else []) ++
  lit "\n          " ++ footer ++
  lit "\n        </td></tr>\n      </table>\n      <div style=\"margin-top:12px;font-size:11px;color:#9ca3af;\">© " ++
  currentYear ++
  lit " Prime Dictation</div>\n    </td></tr>\n  </table>\n</body></html>"

/-- Embeds `renderEmailText` (index.mjs lines 844-855): lines are collected
starting from `[""]` and joined with a bare `"\n"`. -/
def renderEmailText (links : List DownloadLink) (hasAttachments : Bool) : Str :=
  let ls : List Str :=
    if links.length ≠ 0 then
      [[]] ++ [lit "Downloads:"] ++
      links.map (fun l => lit "- " ++ l.label ++ lit ": " ++ l.url) ++
      [[], lit "If a link expires, resend from the app to generate a fresh one."]
    else if hasAttachments then [[], lit "Files are attached to this email."]
    else [[]]
  joinSep (lit "\n") ls

/-- Embeds the shared `buildHtml` (shared/src/index.js lines 3-20).  The
`label`, `key` and `message` values pass through `escapeHtml`; the `url`
is interpolated into the `href` attribute without escaping, exactly as in
the source. -/
def buildHtml (message : Str) (links : List DownloadLink) : Str :=
  let list := (links.map (fun l =>
    lit "<li><strong>" ++ escapeHtml l.label ++ lit ":</strong> <a href=\"" ++
    l.url ++ lit "\">" ++ escapeHtml l.key ++ lit "</a></li>")).flatten
  lit "\n    <div style=\"font-family:system-ui,-apple-system,Segoe UI,Roboto,Arial,sans-serif;line-height:1.5;\">\n      <p>" ++
  escapeHtml message ++ lit "</p>\n      " ++
  (if links.length ≠ 0 then lit "<p>Downloads:</p><ul>" ++ list ++ lit "</ul>"
   else []) ++
  lit "\n      <p>If a link expires, re-send from the app to generate a fresh one.</p>\n    </div>\n  "

/-- Embeds the shared `buildText` (shared/src/index.js lines 22-29). -/
def buildText (message : Str) (links : List DownloadLink) : Str :=
  let list := joinSep (lit "\n") (links.map (fun l =>
    lit "- " ++ l.label ++ lit ": " ++ l.url ++ lit "  (" ++ l.key ++ lit ")"))
  message ++ lit "\n\n" ++
  (if links.length ≠ 0 then lit "Downloads:\n" ++ list ++ lit "\n" else []) ++
  lit "If a link expires, re-send from the app to generate a fresh one.\n"

/-! ## MIME builder (`buildMimeMixed`, index.mjs lines 858-891) -/

/-- An attachment part `{ filename, contentType, data }` (index.mjs line 706). -/
structure MimeAttachment where
  filename : Str
  contentType : Str
  data : List Nat
deriving DecidableEq

/-- `att.filename.replace(/"/g, "'")` (index.mjs line 878). -/
def safeNameOf (filename : Str) : Str :=
  filename.map (fun c => if c = '"' then '\'' else c)

/-- The `headers` array of `buildMimeMixed` (index.mjs lines 862-868). -/
def mixedHeaders (frm toAddr subject bm : Str) : List Str :=
  [lit "From: " ++ frm,
   lit "To: " ++ toAddr,
   lit "Subject: " ++ subject,
   lit "MIME-Version: 1.0",
   lit "Content-Type: multipart/mixed; boundary=\"" ++ bm ++ lit "\""]

/-- The `altSection` string of `buildMimeMixed` (index.mjs lines 870-874). -/
def altSection (bm ba text html : Str) : Str :=
  lit "--" ++ bm ++ crlf ++
  lit "Content-Type: multipart/alternative; boundary=\"" ++ ba ++ lit "\"" ++
  crlf ++ crlf ++
  lit "--" ++ ba ++ crlf ++
  lit "Content-Type: text/plain; charset=\"UTF-8\"" ++ crlf ++
  lit "Content-Transfer-Encoding: 7bit" ++ crlf ++ crlf ++ text ++ crlf ++
  lit "--" ++ ba ++ crlf ++
  lit "Content-Type: text/html; charset=\"UTF-8\"" ++ crlf ++
  lit "Content-Transfer-Encoding: 7bit" ++ crlf ++ crlf ++ html ++ crlf ++
  lit "--" ++ ba ++ lit "--" ++ crlf

/-- One attachment part of `buildMimeMixed` (index.mjs lines 876-886). -/
def attachmentSection (bm : Str) (att : MimeAttachment) : Str :=
  let b64 := base64Encode att.data
  let safeName := safeNameOf att.filename
  lit "--" ++ bm ++ crlf ++
  lit "Content-Type: " ++ att.contentType ++ lit "; name=\"" ++ safeName ++
  lit "\"" ++ crlf ++
  lit "Content-Disposition: attachment; filename=\"" ++ safeName ++ lit "\"" ++
  crlf ++
  lit "Content-Transfer-Encoding: base64" ++ crlf ++ crlf ++
  chunk76 b64 ++ crlf

/-- Embeds `buildMimeMixed` (index.mjs lines 858-891).  The two random
boundary tokens produced by `randomId()` are modelled by the explicit
arguments `bm` and `ba`.  The source finally UTF-8-encodes the string with
`TextEncoder`; the model stays at the character level. -/
def buildMimeMixed (frm toAddr subject text html : Str)
    (attachments : List MimeAttachment) (bm ba : Str) : Str :=
  joinSep crlf (mixedHeaders frm toAddr subject bm) ++ crlf ++ crlf ++
  altSection bm ba text html ++
  (attachments.map (attachmentSection bm)).flatten ++
  (lit "--" ++ bm ++ lit "--")

/-- Detects a LF character that is not preceded by CR; `prev` is the
character before the current position. -/
def hasBareLFAux (prev : Char) : Str → Bool
  | [] => false
  | c :: rest => (c == '\n' && prev != '\r') || hasBareLFAux c rest

/-- True when the string contains a line feed not preceded by a carriage
return (a bare LF). -/
def hasBareLF (s : Str) : Bool := hasBareLFAux 'x' s

/-! ## Storage / request model and the two handler variants -/

/-- Result of `HeadObjectCommand`: `ContentLength` and `ContentType` may be
absent (index.mjs lines 683-685). -/
structure HeadInfo where
  contentLength : Option Nat
  contentType : Option Str
deriving DecidableEq

/-- The storage collaborator as a record of pure oracles: `head` and `getObj`
return `none` for a missing object; `presign` models `getSignedUrl` with a
`ResponseContentDisposition` hint (index.mjs lines 725-737), `presignSimple`
models the hint-free variant (index.mjs lines 250-257). -/
structure Storage where
  head : Str → Option HeadInfo
  getObj : Str → Option (List Nat)
  presign : Str → Str → Str
  presignSimple : Str → Str

/-- Environment configuration of the lambda. -/
structure Env where
  fromEmail : Str
  requireUidPrefix : Bool
  recordingsPrefix : Str
  transcriptionsPrefix : Str
  attachLimitMB : Nat

/-- The parsed request payload `{ toEmail, recordingKey?, transcriptionKey? }`. -/
structure Request where
  toEmail : Str
  recordingKey : Option Str
  transcriptionKey : Option Str
deriving DecidableEq

/-- The candidate asset list built at index.mjs lines 677-679: the recording
item (when the key is present) followed by the transcription item. -/
def itemsOf (req : Request) : List (Str × Str) :=
  (match req.recordingKey with
   | some k => [(k, lit "Recording")]
   | none => []) ++
  (match req.transcriptionKey with
   | some k => [(k, lit "Transcription")]
   | none => [])

/-- Metadata resolution of the authenticated handler (index.mjs lines
681-687): validate each key, probe `head`, and build `AssetMeta`; the first
failure aborts the whole batch (`Promise.all` fail-fast, modelled
sequentially). -/
def resolveAssets (env : Env) (st : Storage) (uid : Str) :
    List (Str × Str) → Except HErr (List AssetMeta)
  | [] => .ok []
  | (key, label) :: rest => do
    let _ ← validateKeyPrefix env.requireUidPrefix env.recordingsPrefix
      env.transcriptionsPrefix key uid
    match st.head key with
    | none => .error (.assetNotFound key)
    | some h =>
      let m : AssetMeta :=
        ⟨key, label, h.contentLength.getD 0,
          h.contentType.getD (inferContentType key)⟩
      let ms ← resolveAssets env st uid rest
      .ok (m :: ms)

/-- `validateKeyPrefix` of the raw-attachment variant (index.mjs lines
298-304): prefix check only, throwing a plain `Error` (no status code). -/
def validateKeyPrefix2 (recPfx trPfx key : Str) : Except HErr Unit :=
  if recPfx.isPrefixOf key || trPfx.isPrefixOf key then .ok ()
  else .error (.invalidKey key)

/-- Metadata resolution of the raw-attachment variant (index.mjs lines
187-193). -/
def resolveAssets2 (env : Env) (st : Storage) :
    List (Str × Str) → Except HErr (List AssetMeta)
  | [] => .ok []
  | (key, label) :: rest => do
    let _ ← validateKeyPrefix2 env.recordingsPrefix env.transcriptionsPrefix key
    match st.head key with
    | none => .error (.assetNotFound key)
    | some h =>
      let m : AssetMeta :=
        ⟨key, label, h.contentLength.getD 0,
          h.contentType.getD (inferContentType key)⟩
      let ms ← resolveAssets2 env st rest
      .ok (m :: ms)

/-- `getObjectBuffer` for each asset in attachments mode (index.mjs lines
703-707): fetch all bodies, first failure aborts. -/
def fetchParts (st : Storage) : List AssetMeta → Except HErr (List MimeAttachment)
  | [] => .ok []
  | m :: rest =>
    match st.getObj m.key with
    | none => .error (.getFailed m.key)
    | some data => do
      let ps ← fetchParts st rest
      .ok (⟨filenameFromKey m.key, m.contentType, data⟩ :: ps)

/-- What the handler submits to the email sink: a raw MIME payload or a
structured subject/text/html message. -/
inductive EmailContent where
  | raw (bytes : Str)
  | simple (subject text html : Str)
deriving DecidableEq

/-- Outcome of one handler invocation.  `sent` carries the submitted email
and the links returned to the caller; `failed` carries the error of the
error response; `abandoned` models a bare `return` with no response and no
send (index.mjs line 202). -/
inductive HandlerResult where
  | sent (content : EmailContent) (links : List DownloadLink)
  | failed (e : HErr)
  | abandoned
deriving DecidableEq

/-- The email submitted by an invocation, if any. -/
def resultEmail : HandlerResult → Option EmailContent
  | .sent c _ => some c
  | _ => none

/-- The presigned links returned by an invocation. -/
def resultLinks : HandlerResult → List DownloadLink
  | .sent _ links => links
  | _ => []

/-- Embeds the authenticated handler (index.mjs lines 664-770).
`auth` models `verifyFirebase` (`none` = missing or invalid token), `bm`
and `ba` the two `randomId()` boundaries, `currentYear` the clock. -/
def handler3 (env : Env) (st : Storage) (auth : Option Str) (req : Request)
    (bm ba currentYear : Str) : HandlerResult :=
  match auth with
  | none => .failed .unauthorized
  | some uid =>
    if req.toEmail = [] then .failed .missingToEmail
    else
      match resolveAssets env st uid (itemsOf req) with
      | .error e => .failed e
      | .ok meta =>
        if wantAttachments env.attachLimitMB meta then
          match fetchParts st meta with
          | .error e => .failed e
          | .ok parts =>
            let html := renderEmailHtml [] true currentYear
            let text := renderEmailText [] true
            let raw := buildMimeMixed env.fromEmail req.toEmail
              (lit "Prime Dictation") text html parts bm ba
            .sent (.raw raw) []
        else
          let links := meta.map (fun m =>
            let filename := filenameFromKey m.key
            DownloadLink.mk m.label m.key
              (st.presign m.key
                (lit "attachment; filename=\"" ++ filename ++ lit "\"")))
          let html := renderEmailHtml links false currentYear
          let text := renderEmailText links false
          .sent (.simple (lit "Prime Dictation") text html) links

/-- One link block of the raw-attachment variant's `renderEmailHtml`
(index.mjs lines 344-358). -/
def linkBlockHtml2 (l : DownloadLink) : Str :=
  let name := escapeHtml (if l.label = [] then lit "Download" else l.label)
  let url := escapeHtml l.url
  let file := escapeHtml (filenameFromKey l.key)
  lit "\n      <tr>\n        <td style=\"padding:8px 0;\">\n          <div style=\"font-size:14px;color:#444;margin-bottom:6px;\"><strong>" ++
  name ++ lit "</strong> — " ++ file ++
  lit "</div>\n          <a href=\"" ++ url ++
  lit "\" style=\"\n            display:inline-block;padding:10px 14px;text-decoration:none;\n            background:#2563eb;color:#fff;border-radius:8px;font-size:14px;\n          \" target=\"_blank\" rel=\"noopener\">Download</a>\n        </td>\n      </tr>"

/-- `renderEmailHtml` of the raw-attachment variant (index.mjs lines
343-392). -/
def renderEmailHtml2 (links : List DownloadLink) (hasAttachments : Bool)
    (currentYear : Str) : Str :=
  let linkBlocks := (links.map linkBlockHtml2).flatten
  let footer :=
    if hasAttachments then
      lit "<p style=\"margin:10px 0 0 0;font-size:14px;color:#6b7280;\">Files are attached to this email.</p>"
    else
      lit "<p style=\"margin:10px 0 0 0;font-size:12px;color:#6b7280;\">If a link expires, resend from the app to generate a fresh one.</p>"
  lit "<!doctype html>\n<html>\n<head>\n<meta charset=\"utf-8\"><meta name=\"viewport\" content=\"width=device-width,initial-scale=1\">\n<title>Prime Dictation</title>\n</head>\n<body style=\"margin:0;padding:0;background:#f6f8fc;\">\n  <table role=\"presentation\" cellspacing=\"0\" cellpadding=\"0\" border=\"0\" width=\"100%\">\n    <tr>\n      <td align=\"center\" style=\"padding:24px;\">\n        <table role=\"presentation\" width=\"100%\" style=\"max-width:560px;background:#fff;border-radius:14px;padding:24px;border:1px solid #e5e7eb;\">\n          <tr><td>\n            <h1 style=\"margin:0 0 10px 0;font-size:20px;line-height:1.3;color:#111827;\">Your Prime Dictation files</h1>\n\n            " ++
  (if links.length ≠ 0 then
      lit "\n              <table role=\"presentation\" width=\"100%\" style=\"margin-top:8px;\">\n                " ++
      linkBlocks ++ lit "\n              </table>"
    else []) ++
  lit "\n\n            " ++ footer ++
  lit "\n          </td></tr>\n        </table>\n        <div style=\"margin-top:12px;font-size:11px;color:#9ca3af;\">© " ++
  currentYear ++
  lit " Prime Dictation</div>\n      </td>\n    </tr>\n  </table>\n</body>\n</html>"

/-- Embeds the raw-attachment handler (index.mjs lines 173-294).  Its
`renderEmailText` (lines 394-405) is string-for-string the same as the
authenticated variant's, so it is shared.  When no Recording asset is
resolved the source executes a bare `return` (line 202): the invocation
ends with no response, no links and no send — modelled as `abandoned`. -/
def handler2 (env : Env) (st : Storage) (req : Request)
    (bm ba currentYear : Str) : HandlerResult :=
  match resolveAssets2 env st (itemsOf req) with
  | .error e => .failed e
  | .ok meta =>
    let recordingMeta := meta.find? (fun m => m.label == lit "Recording")
    let transcriptionMeta := meta.find? (fun m => m.label == lit "Transcription")
    match recordingMeta with
    | none => .abandoned
    | some rm =>
      let sumOfFiles :=
        match transcriptionMeta with
        | some tm => if tm.size ≠ 0 then rm.size + tm.size else rm.size
        | none => rm.size
      let wantAtt := decide (sumOfFiles ≤ env.attachLimitMB * MB) &&
        fitsSesLimitWhenBase64 meta
      if wantAtt then
        match fetchParts st meta with
        | .error e => .failed e
        | .ok parts =>
          let html := renderEmailHtml2 [] true currentYear
          let text := renderEmailText [] true
          let raw := buildMimeMixed env.fromEmail req.toEmail
            (lit "Your Prime Dictation files") text html parts bm ba
          .sent (.raw raw) []
      else
        let links := meta.map (fun m =>
          DownloadLink.mk m.label m.key (st.presignSimple m.key))
        let html := renderEmailHtml2 links false currentYear
        let text := renderEmailText links false
        .sent (.simple (lit "Your Prime Dictation files") text html) links

/-! ## A reference MIME parser

A small standards-oriented parser used to state the build-then-parse
round-trip property of `buildMimeMixed`: RFC 2046 multipart splitting on
`CRLF "--" boundary` delimiter lines, header blocks terminated by a blank
line, parameter extraction, base64 transfer decoding. -/

/-- Splits a string at the first occurrence of `sep`, returning the parts
before and after it; `none` when `sep` does not occur. -/
def breakOnSeq (sep : Str) : Str → Option (Str × Str)
  | [] => none
  | c :: rest =>
    if sep.isPrefixOf (c :: rest) then some ([], (c :: rest).drop sep.length)
    else
      match breakOnSeq sep rest with
      | some (a, b) => some (c :: a, b)
      | none => none

/-- Fuelled worker for `splitParts`; `fuel = s.length` always suffices for a
non-empty separator. -/
def splitPartsF (sep : Str) : Nat → Str → List Str
  | 0, s => [s]
  | Nat.succ fuel, s =>
    match breakOnSeq sep s with
    | none => [s]
    | some (a, b) => a :: splitPartsF sep fuel b

/-- Splits a string on every occurrence of `sep`. -/
def splitParts (sep s : Str) : List Str := splitPartsF sep s.length s

/-- No occurrence of `sep` starts at an index `< n` of `s`. -/
def noOccBefore (sep s : Str) (n : Nat) : Bool :=
  (List.range n).all (fun i => !(sep.isPrefixOf (s.drop i)))

/-- `sep` does not occur in `m` at all, not even straddling into an
immediately following copy of `sep`. -/
def cleanBefore (sep m : Str) : Bool := noOccBefore sep (m ++ sep) m.length

/-- `sep` occurs nowhere in `s`. -/
def noOccAll (sep s : Str) : Bool := noOccBefore sep s s.length

/-- A header block split into its lines, and the body after the first blank
line. -/
structure ParsedPart where
  headers : List Str
  body : Str
deriving DecidableEq

/-- Splits a MIME entity at the first blank line into header lines and
body. -/
def parsePart (s : Str) : Option ParsedPart :=
  match breakOnSeq (crlf ++ crlf) s with
  | some (h, b) => some ⟨splitParts crlf h, b⟩
  | none => none

/-- Leading-space trimming for header values. -/
def dropSpaces (s : Str) : Str := s.dropWhile (fun c => c == ' ')

/-- Value of the first header line starting with `name`. -/
def headerValue (name : Str) (headers : List Str) : Option Str :=
  (headers.find? (fun l => name.isPrefixOf l)).map
    (fun l => dropSpaces (l.drop name.length))

/-- Extracts a quoted parameter introduced by `marker` (e.g.
`boundary="`): the characters following the first `marker` up to the next
double quote. -/
def extractParam (marker : Str) (s : Str) : Option Str :=
  (breakOnSeq marker s).map (fun p => p.2.takeWhile (fun c => c ≠ '"'))

/-- Splits a multipart body on the delimiter `CRLF "--" boundary` (a CRLF
is prepended so that the leading delimiter, which omits it, is found too),
checks the final piece is the closing `--`, and strips the CRLF that ends
each boundary line.  Returns the list of enclosed parts. -/
def splitMultipart (boundary : Str) (body : Str) : Option (List Str) :=
  let sep := crlf ++ lit "--" ++ boundary
  match splitParts sep (crlf ++ body) with
  | [] => none
  | first :: rest =>
    if first = ([] : Str) then
      match rest.reverse with
      | [] => none
      | closing :: middlesRev =>
        if (lit "--").isPrefixOf closing then
          middlesRev.reverse.mapM (fun m =>
            if crlf.isPrefixOf m then some (m.drop 2) else none)
        else none
    else none

/-- Strips every CR and LF (base64 transfer decoding ignores line breaks). -/
def stripCRLF (s : Str) : Str :=
  s.filter (fun c => !(c == '\r' || c == '\n'))

/-- An attachment as recovered by the parser. -/
structure ParsedAttachment where
  filename : Str
  contentType : Str
  data : List Nat
deriving DecidableEq

/-- The whole message as recovered by the parser. -/
structure ParsedMessage where
  text : Str
  html : Str
  attachments : List ParsedAttachment
deriving DecidableEq

/-- Parses one attachment part: `Content-Type` up to the `name` parameter,
`filename` from `Content-Disposition`, body base64-decoded. -/
def parseAttachment (s : Str) : Option ParsedAttachment := do
  let p ← parsePart s
  let ct ← headerValue (lit "Content-Type:") p.headers
  let cd ← headerValue (lit "Content-Disposition:") p.headers
  let fname ← extractParam (lit "filename=\"") cd
  let ctPair ← breakOnSeq (lit "; name=\"") ct
  let bytes ← base64Decode (stripCRLF p.body)
  pure ⟨fname, ctPair.1, bytes⟩

/-- Parses a 7bit text part whose `Content-Type` starts with
`expectedCT`; yields the body verbatim. -/
def parseTextPart (expectedCT : Str) (s : Str) : Option Str := do
  let p ← parsePart s
  let ct ← headerValue (lit "Content-Type:") p.headers
  if expectedCT.isPrefixOf ct then pure p.body else none

/-- Parses the `multipart/alternative` container into its text and html
bodies. -/
def parseAlternative (s : Str) : Option (Str × Str) := do
  let p ← parsePart s
  let ct ← headerValue (lit "Content-Type:") p.headers
  let ba ← extractParam (lit "boundary=\"") ct
  let subs ← splitMultipart ba p.body
  match subs with
  | [tp, hp] => do
    let text ← parseTextPart (lit "text/plain") tp
    let html ← parseTextPart (lit "text/html") hp
    pure (text, html)
  | _ => none

/-- Parses a complete raw message produced for the `multipart/mixed`
layout: headers, alternative container, then one part per attachment. -/
def parseMime (raw : Str) : Option ParsedMessage := do
  let p ← parsePart raw
  let ct ← headerValue (lit "Content-Type:") p.headers
  let bm ← extractParam (lit "boundary=\"") ct
  let secs ← splitMultipart bm p.body
  match secs with
  | [] => none
  | altSec :: attSecs => do
    let th ← parseAlternative altSec
    let atts ← attSecs.mapM parseAttachment
    pure ⟨th.1, th.2, atts⟩

/-! ## Named pieces of the built message

These definitions name the regions of `buildMimeMixed`'s output; each is
proved equal to the corresponding slice of the builder by pure
re-association, and the round-trip theorem's side conditions are stated on
them. -/

/-- The header block of the built message. -/
def hdrBlock (frm toAddr subject bm : Str) : Str :=
  joinSep crlf (mixedHeaders frm toAddr subject bm)

/-- The `Content-Type` header line of the mixed container. -/
def ctLineMixed (bm : Str) : Str :=
  lit "Content-Type: multipart/mixed; boundary=\"" ++ bm ++ lit "\""

/-- The `Content-Type` header line of the alternative container. -/
def ctLineAlt (ba : Str) : Str :=
  lit "Content-Type: multipart/alternative; boundary=\"" ++ ba ++ lit "\""

/-- The text part within the alternative container. -/
def textInner (text : Str) : Str :=
  lit "Content-Type: text/plain; charset=\"UTF-8\"" ++ crlf ++
  lit "Content-Transfer-Encoding: 7bit" ++ crlf ++ crlf ++ text

/-- The html part within the alternative container. -/
def htmlInner (html : Str) : Str :=
  lit "Content-Type: text/html; charset=\"UTF-8\"" ++ crlf ++
  lit "Content-Transfer-Encoding: 7bit" ++ crlf ++ crlf ++ html

/-- The whole alternative section without its enclosing mixed-boundary
lines. -/
def altInner (ba text html : Str) : Str :=
  ctLineAlt ba ++ crlf ++ crlf ++
  lit "--" ++ ba ++ crlf ++ textInner text ++ crlf ++
  lit "--" ++ ba ++ crlf ++ htmlInner html ++ crlf ++
  lit "--" ++ ba ++ lit "--"

/-- The `Content-Type` line of one attachment part. -/
def attCtLine (att : MimeAttachment) : Str :=
  lit "Content-Type: " ++ att.contentType ++ lit "; name=\"" ++
  safeNameOf att.filename ++ lit "\""

/-- The `Content-Disposition` line of one attachment part. -/
def attCdLine (att : MimeAttachment) : Str :=
  lit "Content-Disposition: attachment; filename=\"" ++
  safeNameOf att.filename ++ lit "\""

/-- The header block of one attachment part. -/
def attHdrs (att : MimeAttachment) : Str :=
  attCtLine att ++ crlf ++ attCdLine att ++ crlf ++
  lit "Content-Transfer-Encoding: base64"

/-- One attachment part without its enclosing mixed-boundary lines. -/
def attInner (att : MimeAttachment) : Str :=
  attHdrs att ++ crlf ++ crlf ++ chunk76 (base64Encode att.data)

/-- A multipart body after its first delimiter: sections separated by the
delimiter and closed with the final `--`. -/
def sectionsBody (sep : Str) : List Str → Str
  | [] => lit "--"
  | m :: rest => m ++ sep ++ sectionsBody sep rest

/-- Side conditions of the round-trip: the blank-line separator, the two
boundary delimiters and the quote terminator occur only where the builder
places them; content types start with a non-space and host their own
parameters only; data entries are bytes. -/
def mimeClean (frm toAddr subject text html : Str)
    (atts : List MimeAttachment) (bm ba : Str) : Prop :=
  cleanBefore (crlf ++ crlf) (hdrBlock frm toAddr subject bm) = true ∧
  cleanBefore crlf (lit "From: " ++ frm) = true ∧
  cleanBefore crlf (lit "To: " ++ toAddr) = true ∧
  cleanBefore crlf (lit "Subject: " ++ subject) = true ∧
  noOccAll crlf (ctLineMixed bm) = true ∧
  (∀ c ∈ bm, ¬(c = '"')) ∧
  (∀ c ∈ ba, ¬(c = '"')) ∧
  cleanBefore (crlf ++ lit "--" ++ bm) (crlf ++ altInner ba text html) = true ∧
  (∀ a ∈ atts, cleanBefore (crlf ++ lit "--" ++ bm) (crlf ++ attInner a) = true) ∧
  cleanBefore (crlf ++ crlf) (ctLineAlt ba) = true ∧
  noOccAll crlf (ctLineAlt ba) = true ∧
  cleanBefore (crlf ++ lit "--" ++ ba) (crlf ++ textInner text) = true ∧
  cleanBefore (crlf ++ lit "--" ++ ba) (crlf ++ htmlInner html) = true ∧
  (∀ a ∈ atts,
    cleanBefore (crlf ++ crlf) (attHdrs a) = true ∧
    cleanBefore crlf (attCtLine a) = true ∧
    cleanBefore crlf (attCdLine a) = true ∧
    cleanBefore (lit "; name=\"") a.contentType = true ∧
    a.contentType.head? ≠ some ' ' ∧
    (∀ b ∈ a.data, b < 256))

/-! ## Generic lemmas about prefixes and splitting -/

theorem noOccBefore_iff {sep s : Str} {n : Nat} :
    noOccBefore sep s n = true ↔ ∀ i < n, sep.isPrefixOf (s.drop i) = false := by
  simp [noOccBefore, List.all_eq_true, List.mem_range]

theorem isPrefixOf_append_of_le {p y : Str} (z : Str) (h : p.length ≤ y.length) :
    p.isPrefixOf (y ++ z) = p.isPrefixOf y := by
  induction p generalizing y with
  | nil => simp [List.isPrefixOf]
  | cons a p ih =>
    cases y with
    | nil => simp at h
    | cons b y =>
      simp only [List.length_cons, Nat.succ_le_succ_iff] at h
      simp [List.isPrefixOf, List.cons_append, @ih y h]

theorem take_isPrefixOf {p s : Str} (h : p.isPrefixOf s = true) (n : Nat) :
    (p.take n).isPrefixOf (s.take n) = true := by
  induction p generalizing s n with
  | nil => simp [List.isPrefixOf]
  | cons a p ih =>
    cases s with
    | nil => simp [List.isPrefixOf] at h
    | cons b s =>
      simp only [List.isPrefixOf, Bool.and_eq_true] at h
      cases n with
      | zero => simp [List.isPrefixOf]
      | succ n => simp [List.isPrefixOf, h.1, ih h.2 n]

theorem isPrefixOf_append_false {p k : Str} (v : Str)
    (h : (p.take k.length).isPrefixOf k = false) :
    p.isPrefixOf (k ++ v) = false := by
  cases hpk : p.isPrefixOf (k ++ v) with
  | false => rfl
  | true =>
    have h2 := take_isPrefixOf hpk k.length
    rw [List.take_left] at h2
    rw [h2] at h
    exact absurd h (by simp)

theorem isPrefixOf_self_append (p z : Str) : p.isPrefixOf (p ++ z) = true :=
  List.isPrefixOf_iff_prefix.mpr (List.prefix_append p z)

theorem breakOnSeq_at {sep : Str} (a b : Str) (hsep : sep ≠ [])
    (h : noOccBefore sep (a ++ sep ++ b) a.length = true) :
    breakOnSeq sep (a ++ sep ++ b) = some (a, b) := by
  induction a with
  | nil =>
    obtain ⟨c, sep', rfl⟩ := List.exists_cons_of_ne_nil hsep
    simp only [List.nil_append, List.cons_append]
    rw [breakOnSeq]
    have hpre : (c :: sep').isPrefixOf (c :: (sep' ++ b)) = true := by
      have hx := isPrefixOf_self_append (c :: sep') b
      simp only [List.cons_append] at hx
      exact hx
    simp only [hpre, if_true]
    have hdrop : (c :: (sep' ++ b)).drop (c :: sep').length = b := by
      have hx := List.drop_left (c :: sep') b
      simp only [List.cons_append] at hx
      exact hx
    simp [hdrop]
  | cons c a ih =>
    have h0 : sep.isPrefixOf ((c :: a) ++ sep ++ b) = false := by
      have := noOccBefore_iff.mp h 0 (by simp)
      simpa using this
    have hshift : noOccBefore sep (a ++ sep ++ b) a.length = true := by
      rw [noOccBefore_iff]
      intro i hi
      have := noOccBefore_iff.mp h (i + 1) (by simp; omega)
      simpa using this
    simp only [List.cons_append]
    rw [breakOnSeq]
    simp only [List.cons_append] at h0
    have hcond : ¬ sep.isPrefixOf (c :: (a ++ sep ++ b)) = true := by
      intro hk
      rw [h0] at hk
      simp at hk
    rw [if_neg hcond, ih hshift]

theorem breakOnSeq_none {sep s : Str} (h : noOccAll sep s = true) :
    breakOnSeq sep s = none := by
  induction s with
  | nil => rfl
  | cons c rest ih =>
    have h0 : sep.isPrefixOf (c :: rest) = false := by
      have := noOccBefore_iff.mp h 0 (by simp)
      simpa using this
    have hshift : noOccAll sep rest = true := by
      rw [noOccAll, noOccBefore_iff]
      intro i hi
      have := noOccBefore_iff.mp h (i + 1) (by simp; omega)
      simpa using this
    rw [breakOnSeq]
    simp [h0, ih hshift]

theorem breakOnSeq_none_of_short {sep s : Str} (h : s.length < sep.length) :
    breakOnSeq sep s = none := by
  induction s with
  | nil => rfl
  | cons c rest ih =>
    have h0 : sep.isPrefixOf (c :: rest) = false := by
      cases hpk : sep.isPrefixOf (c :: rest) with
      | false => rfl
      | true =>
        have := (List.isPrefixOf_iff_prefix.mp hpk).length_le
        omega
    rw [breakOnSeq]
    simp [h0, ih (by simp at h ⊢; omega)]

theorem breakOnSeq_some_length {sep s a b : Str}
    (h : breakOnSeq sep s = some (a, b)) :
    a.length + sep.length + b.length = s.length := by
  induction s generalizing a b with
  | nil => simp [breakOnSeq] at h
  | cons c rest ih =>
    rw [breakOnSeq] at h
    by_cases hpre : sep.isPrefixOf (c :: rest) = true
    · rw [if_pos hpre] at h
      have hlen : sep.length ≤ rest.length + 1 := by
        have := (List.isPrefixOf_iff_prefix.mp hpre).length_le
        simpa using this
      have h2 := Option.some.inj h
      rw [Prod.ext_iff] at h2
      obtain ⟨h3, h4⟩ := h2
      subst h3
      subst h4
      simp [List.length_drop]
      omega
    · rw [if_neg hpre] at h
      cases hbk : breakOnSeq sep rest with
      | none => rw [hbk] at h; exact absurd h (by simp)
      | some p =>
        obtain ⟨a1, b1⟩ := p
        rw [hbk] at h
        simp only [Option.some.injEq, Prod.mk.injEq] at h
        obtain ⟨h3, h4⟩ := h
        subst h3
        subst h4
        have := ih hbk
        simp only [List.length_cons] at this ⊢
        omega

theorem splitPartsF_congr {sep : Str} (hsep : sep ≠ []) :
    ∀ (f1 f2 : Nat) (s : Str), s.length ≤ f1 → s.length ≤ f2 →
      splitPartsF sep f1 s = splitPartsF sep f2 s := by
  intro f1
  induction f1 with
  | zero =>
    intro f2 s h1 _
    have hs : s = [] := List.length_eq_zero.mp (Nat.le_zero.mp h1)
    subst hs
    cases f2 with
    | zero => rfl
    | succ f2 => simp [splitPartsF, breakOnSeq]
  | succ f1 ih =>
    intro f2 s h1 h2
    cases f2 with
    | zero =>
      have hs : s = [] := List.length_eq_zero.mp (Nat.le_zero.mp h2)
      subst hs
      simp [splitPartsF, breakOnSeq]
    | succ f2 =>
      rw [splitPartsF, splitPartsF]
      cases hbk : breakOnSeq sep s with
      | none => rfl
      | some p =>
        obtain ⟨a, b⟩ := p
        have hlen := breakOnSeq_some_length hbk
        have hsl : 1 ≤ sep.length := List.length_pos.mpr hsep
        have hb1 : b.length ≤ f1 := by omega
        have hb2 : b.length ≤ f2 := by omega
        show a :: splitPartsF sep f1 b = a :: splitPartsF sep f2 b
        rw [ih f2 b hb1 hb2]

theorem splitParts_cons {sep : Str} (a b : Str) (hsep : sep ≠ [])
    (h : noOccBefore sep (a ++ sep ++ b) a.length = true) :
    splitParts sep (a ++ sep ++ b) = a :: splitParts sep b := by
  have hbk := breakOnSeq_at a b hsep h
  unfold splitParts
  cases hn : (a ++ sep ++ b).length with
  | zero =>
    exfalso
    have := breakOnSeq_some_length hbk
    have hsl : 1 ≤ sep.length := List.length_pos.mpr hsep
    omega
  | succ m =>
    rw [splitPartsF, hbk]
    have hlen := breakOnSeq_some_length hbk
    have hsl : 1 ≤ sep.length := List.length_pos.mpr hsep
    show a :: splitPartsF sep m b = a :: splitParts sep b
    rw [splitPartsF_congr hsep m b.length b (by omega) (by omega)]
    rfl

theorem splitParts_single {sep s : Str} (h : breakOnSeq sep s = none) :
    splitParts sep s = [s] := by
  unfold splitParts
  cases hn : s.length with
  | zero => rfl
  | succ m => rw [splitPartsF, h]

theorem noOccBefore_of_cleanBefore {sep m : Str} (b : Str)
    (h : cleanBefore sep m = true) :
    noOccBefore sep (m ++ sep ++ b) m.length = true := by
  rw [noOccBefore_iff]
  intro i hi
  have hc := noOccBefore_iff.mp h i hi
  have hdrop : (m ++ sep ++ b).drop i = (m ++ sep).drop i ++ b :=
    List.drop_append_of_le_length (by simp; omega)
  rw [hdrop, isPrefixOf_append_of_le b (by simp [List.length_drop]; omega), hc]

theorem noOccBefore_extend {sep k : Str} (v : Str) (n : Nat)
    (hlen : n + sep.length ≤ k.length)
    (h : noOccBefore sep k n = true) : noOccBefore sep (k ++ v) n = true := by
  rw [noOccBefore_iff] at h ⊢
  intro i hi
  have hdrop : (k ++ v).drop i = k.drop i ++ v :=
    List.drop_append_of_le_length (by omega)
  rw [hdrop, isPrefixOf_append_of_le v (by simp [List.length_drop]; omega), h i hi]

theorem infix_extend_right {l m : Str} (n : Str) (h : l <:+: m) :
    l <:+: m ++ n := by
  obtain ⟨u, v, rfl⟩ := h
  exact ⟨u, v ++ n, by simp⟩

theorem infix_extend_left {l m : Str} (n : Str) (h : l <:+: m) :
    l <:+: n ++ m := by
  obtain ⟨u, v, rfl⟩ := h
  exact ⟨n ++ u, v, by simp⟩

theorem mem_infix_joinSep {x sep : Str} :
    ∀ {parts : List Str}, x ∈ parts → x <:+: joinSep sep parts := by
  intro parts
  induction parts with
  | nil => intro h; simp at h
  | cons p ps ih =>
    intro h
    cases ps with
    | nil =>
      have hx : x = p := by simpa using h
      subst hx
      exact List.infix_refl x
    | cons q qs =>
      rcases List.mem_cons.mp h with h1 | h2
      · subst h1
        exact ⟨[], sep ++ joinSep sep (q :: qs), by simp [joinSep]⟩
      · have h3 := infix_extend_left (p ++ sep) (ih h2)
        show x <:+: p ++ sep ++ joinSep sep (q :: qs)
        rw [List.append_assoc] at h3 ⊢
        exact h3

/-! ## Lemmas about `chunk76`, `stripCRLF` and base64 -/

theorem chunk76Aux_flatten (fuel : Nat) : ∀ s : Str, (chunk76Aux fuel s).flatten = s := by
  induction fuel with
  | zero => intro s; cases s <;> simp [chunk76Aux]
  | succ fuel ih =>
    intro s
    cases s with
    | nil => simp [chunk76Aux]
    | cons c cs => simp [chunk76Aux, ih]

theorem chunk76Aux_le (fuel : Nat) : ∀ s : Str, s.length ≤ fuel →
    ∀ l ∈ chunk76Aux fuel s, l.length ≤ 76 := by
  induction fuel with
  | zero =>
    intro s h l hl
    have hs : s = [] := List.length_eq_zero.mp (Nat.le_zero.mp h)
    subst hs
    simp [chunk76Aux] at hl
  | succ fuel ih =>
    intro s h l hl
    cases s with
    | nil => simp [chunk76Aux] at hl
    | cons c cs =>
      simp only [chunk76Aux] at hl
      rcases List.mem_cons.mp hl with h1 | h2
      · subst h1
        simp [List.length_take]
      · refine ih _ ?_ l h2
        simp only [List.length_cons] at h
        simp [List.length_drop]
        omega

theorem chunk76_lines_flatten (s : Str) : (chunk76Aux s.length s).flatten = s :=
  chunk76Aux_flatten s.length s

theorem chunk76_lines_le (s : Str) : ∀ l ∈ chunk76Aux s.length s, l.length ≤ 76 :=
  chunk76Aux_le s.length s (Nat.le_refl _)

theorem stripCRLF_append (a b : Str) :
    stripCRLF (a ++ b) = stripCRLF a ++ stripCRLF b :=
  List.filter_append ..

theorem stripCRLF_of_clean {s : Str} (h : ∀ c ∈ s, c ≠ '\r' ∧ c ≠ '\n') :
    stripCRLF s = s := by
  refine List.filter_eq_self.mpr fun c hc => ?_
  have := h c hc
  simp [this.1, this.2]

theorem stripCRLF_joinSep_crlf :
    ∀ {lines : List Str}, (∀ l ∈ lines, ∀ c ∈ l, c ≠ '\r' ∧ c ≠ '\n') →
    stripCRLF (joinSep crlf lines) = lines.flatten := by
  intro lines
  induction lines with
  | nil => intro _; rfl
  | cons p ps ih =>
    intro h
    cases ps with
    | nil => simp [joinSep, stripCRLF_of_clean (h p (by simp))]
    | cons q qs =>
      show stripCRLF (p ++ crlf ++ joinSep crlf (q :: qs)) = _
      rw [stripCRLF_append, stripCRLF_append,
        stripCRLF_of_clean (h p (by simp)),
        ih (fun l hl => h l (by simp [hl]))]
      have hc : stripCRLF crlf = [] := rfl
      rw [hc]
      simp

theorem stripCRLF_chunk76 {s : Str} (h : ∀ c ∈ s, c ≠ '\r' ∧ c ≠ '\n') :
    stripCRLF (chunk76 s) = s := by
  unfold chunk76
  rw [stripCRLF_joinSep_crlf, chunk76_lines_flatten]
  intro l hl c hc
  refine h c ?_
  rw [← chunk76_lines_flatten s]
  exact List.mem_flatten.mpr ⟨l, hl, hc⟩

theorem b64Val_b64Char : ∀ n < 64, b64Val (b64Char n) = some n := by decide

theorem b64Char_ne_eq : ∀ n < 64, b64Char n ≠ '=' := by decide

theorem b64Char_mem : ∀ n : Nat, b64Char n ∈ b64Alphabet := by
  intro n
  by_cases h : n < b64Alphabet.length
  · unfold b64Char
    rw [List.getD_eq_getElem _ _ h]
    exact List.getElem_mem ..
  · unfold b64Char
    rw [List.getD_eq_default _ _ (by omega)]
    decide

theorem b64Alphabet_clean : ∀ c ∈ b64Alphabet, c ≠ '\r' ∧ c ≠ '\n' := by decide

theorem clean_of_mem_alpha {c : Char} (h : c ∈ b64Alphabet) :
    c ≠ '\r' ∧ c ≠ '\n' := b64Alphabet_clean c h

theorem base64Encode_clean (bs : List Nat) :
    ∀ c ∈ base64Encode bs, c ≠ '\r' ∧ c ≠ '\n' := by
  induction bs using base64Encode.induct with
  | case1 => intro c hc; simp [base64Encode] at hc
  | case2 b0 =>
    intro c hc
    rcases List.mem_cons.mp hc with rfl | hc2
    · exact clean_of_mem_alpha (b64Char_mem _)
    rcases List.mem_cons.mp hc2 with rfl | hc3
    · exact clean_of_mem_alpha (b64Char_mem _)
    rcases List.mem_cons.mp hc3 with rfl | hc4
    · exact ⟨by decide, by decide⟩
    rcases List.mem_cons.mp hc4 with rfl | hc5
    · exact ⟨by decide, by decide⟩
    · simp at hc5
  | case3 b0 b1 =>
    intro c hc
    rcases List.mem_cons.mp hc with rfl | hc2
    · exact clean_of_mem_alpha (b64Char_mem _)
    rcases List.mem_cons.mp hc2 with rfl | hc3
    · exact clean_of_mem_alpha (b64Char_mem _)
    rcases List.mem_cons.mp hc3 with rfl | hc4
    · exact clean_of_mem_alpha (b64Char_mem _)
    rcases List.mem_cons.mp hc4 with rfl | hc5
    · exact ⟨by decide, by decide⟩
    · simp at hc5
  | case4 b0 b1 b2 rest ih =>
    intro c hc
    rcases List.mem_cons.mp hc with rfl | hc2
    · exact clean_of_mem_alpha (b64Char_mem _)
    rcases List.mem_cons.mp hc2 with rfl | hc3
    · exact clean_of_mem_alpha (b64Char_mem _)
    rcases List.mem_cons.mp hc3 with rfl | hc4
    · exact clean_of_mem_alpha (b64Char_mem _)
    rcases List.mem_cons.mp hc4 with rfl | hc5
    · exact clean_of_mem_alpha (b64Char_mem _)
    · exact ih c hc5

theorem base64_roundtrip (bs : List Nat) (h : ∀ b ∈ bs, b < 256) :
    base64Decode (base64Encode bs) = some bs := by
  induction bs using base64Encode.induct with
  | case1 => rfl
  | case2 b0 =>
    have hb0 : b0 < 256 := h b0 (by simp)
    show base64Decode [b64Char (b0 / 4), b64Char (b0 % 4 * 16), '=', '='] =
      some [b0]
    rw [base64Decode, if_pos rfl, if_pos ⟨rfl, rfl⟩,
      b64Val_b64Char _ (by omega), b64Val_b64Char _ (by omega)]
    simp
    all_goals omega
  | case3 b0 b1 =>
    have hb0 : b0 < 256 := h b0 (by simp)
    have hb1 : b1 < 256 := h b1 (by simp)
    show base64Decode [b64Char (b0 / 4), b64Char (b0 % 4 * 16 + b1 / 16),
      b64Char (b1 % 16 * 4), '='] = some [b0, b1]
    rw [base64Decode, if_neg (b64Char_ne_eq _ (by omega)), if_pos rfl,
      if_pos rfl, b64Val_b64Char _ (by omega), b64Val_b64Char _ (by omega),
      b64Val_b64Char _ (by omega)]
    simp
    all_goals omega
  | case4 b0 b1 b2 rest ih =>
    have hb0 : b0 < 256 := h b0 (by simp)
    have hb1 : b1 < 256 := h b1 (by simp)
    have hb2 : b2 < 256 := h b2 (by simp)
    have hrest : ∀ b ∈ rest, b < 256 := fun b hb => h b (by simp [hb])
    show base64Decode (b64Char (b0 / 4) :: b64Char (b0 % 4 * 16 + b1 / 16) ::
      b64Char (b1 % 16 * 4 + b2 / 64) :: b64Char (b2 % 64) ::
      base64Encode rest) = some (b0 :: b1 :: b2 :: rest)
    rw [base64Decode, if_neg (b64Char_ne_eq _ (by omega)),
      if_neg (b64Char_ne_eq _ (by omega)),
      b64Val_b64Char _ (by omega), b64Val_b64Char _ (by omega),
      b64Val_b64Char _ (by omega), b64Val_b64Char _ (by omega), ih hrest]
    simp
    all_goals omega

/-! ## Lemmas about `escapeHtml` -/

theorem escapeHtml_append (a b : Str) :
    escapeHtml (a ++ b) = escapeHtml a ++ escapeHtml b := by
  unfold escapeHtml replaceAllChar
  simp [List.flatMap_append]

theorem escapeHtml_singleton (c : Char) : escapeHtml [c] = escChar c := by
  unfold escapeHtml escChar replaceAllChar
  by_cases h1 : c = '&'
  · subst h1; rfl
  by_cases h2 : c = '<'
  · subst h2; rfl
  by_cases h3 : c = '>'
  · subst h3; rfl
  by_cases h4 : c = '"'
  · subst h4; rfl
  by_cases h5 : c = '\''
  · subst h5; rfl
  simp [h1, h2, h3, h4, h5]

theorem escapeHtml_eq_flatMap (s : Str) : escapeHtml s = s.flatMap escChar := by
  induction s with
  | nil => rfl
  | cons c cs ih =>
    have hc : (c :: cs) = [c] ++ cs := rfl
    rw [hc, escapeHtml_append, escapeHtml_singleton, ih]
    rfl

/-- The four characters that may never appear raw in escaped output. -/
def metaChars4 : List Char := ['<', '>', '"', '\'']

theorem escChar_count_zero (x : Char) (hx : x ∈ metaChars4) (c : Char) :
    (escChar c).count x = 0 := by
  unfold escChar
  by_cases h1 : c = '&'
  · subst h1; fin_cases hx <;> decide
  by_cases h2 : c = '<'
  · subst h2; fin_cases hx <;> decide
  by_cases h3 : c = '>'
  · subst h3; fin_cases hx <;> decide
  by_cases h4 : c = '"'
  · subst h4; fin_cases hx <;> decide
  by_cases h5 : c = '\''
  · subst h5; fin_cases hx <;> decide
  simp only [h1, h2, h3, h4, h5, if_false]
  fin_cases hx <;>
    · rw [List.count_eq_zero]
      simp only [List.mem_singleton]
      intro hcc
      first
        | exact h1 hcc.symm
        | exact h2 hcc.symm
        | exact h3 hcc.symm
        | exact h4 hcc.symm
        | exact h5 hcc.symm

theorem escapeHtml_count_zero (x : Char) (hx : x ∈ metaChars4) (s : Str) :
    (escapeHtml s).count x = 0 := by
  rw [escapeHtml_eq_flatMap]
  induction s with
  | nil => rfl
  | cons c cs ih =>
    show (escChar c ++ cs.flatMap escChar).count x = 0
    rw [List.count_append, escChar_count_zero x hx c, ih]

/-- Tails of the five escape entities, checked after an ampersand. -/
def entityTails : List Str :=
  [lit "amp;", lit "lt;", lit "gt;", lit "quot;", lit "#039;"]

/-- Every ampersand in the string starts one of the five escape
entities. -/
def ampOk : Str → Bool
  | [] => true
  | c :: rest =>
    (if c = '&' then entityTails.any (fun e => e.isPrefixOf rest) else true) &&
    ampOk rest

theorem ampOk_cons_ne {c : Char} (hc : c ≠ '&') {t : Str}
    (ht : ampOk t = true) : ampOk (c :: t) = true := by
  rw [ampOk, if_neg hc, ht]
  rfl

theorem ampOk_append_of_no_amp {u : Str} (hu : ∀ c ∈ u, c ≠ '&') {t : Str}
    (ht : ampOk t = true) : ampOk (u ++ t) = true := by
  induction u with
  | nil => exact ht
  | cons c cs ih =>
    rw [List.cons_append]
    exact ampOk_cons_ne (hu c (by simp)) (ih fun d hd => hu d (by simp [hd]))

theorem ampOk_entity_append (tail : Str) (htail : tail ∈ entityTails)
    (hclean : ∀ c ∈ tail, c ≠ '&') {t : Str} (ht : ampOk t = true) :
    ampOk ('&' :: (tail ++ t)) = true := by
  rw [ampOk, if_pos rfl]
  have hany : entityTails.any (fun e => e.isPrefixOf (tail ++ t)) = true :=
    List.any_eq_true.mpr ⟨tail, htail, isPrefixOf_self_append tail t⟩
  rw [hany, ampOk_append_of_no_amp hclean ht]
  rfl

theorem ampOk_escChar_append (c : Char) {t : Str} (ht : ampOk t = true) :
    ampOk (escChar c ++ t) = true := by
  by_cases h1 : c = '&'
  · subst h1
    show ampOk ('&' :: (lit "amp;" ++ t)) = true
    exact ampOk_entity_append (lit "amp;") (by simp [entityTails])
      (by decide) ht
  by_cases h2 : c = '<'
  · subst h2
    show ampOk ('&' :: (lit "lt;" ++ t)) = true
    exact ampOk_entity_append (lit "lt;") (by simp [entityTails])
      (by decide) ht
  by_cases h3 : c = '>'
  · subst h3
    show ampOk ('&' :: (lit "gt;" ++ t)) = true
    exact ampOk_entity_append (lit "gt;") (by simp [entityTails])
      (by decide) ht
  by_cases h4 : c = '"'
  · subst h4
    show ampOk ('&' :: (lit "quot;" ++ t)) = true
    exact ampOk_entity_append (lit "quot;") (by simp [entityTails])
      (by decide) ht
  by_cases h5 : c = '\''
  · subst h5
    show ampOk ('&' :: (lit "#039;" ++ t)) = true
    exact ampOk_entity_append (lit "#039;") (by simp [entityTails])
      (by decide) ht
  have he : escChar c = [c] := by simp [escChar, h1, h2, h3, h4, h5]
  rw [he]
  exact ampOk_cons_ne h1 ht

theorem ampOk_escapeHtml (s : Str) : ampOk (escapeHtml s) = true := by
  rw [escapeHtml_eq_flatMap]
  induction s with
  | nil => rfl
  | cons c cs ih =>
    show ampOk (escChar c ++ cs.flatMap escChar) = true
    exact ampOk_escChar_append c ih

/-- Executable infix test with linear recursion depth. -/
def isInfixB (p : Str) : Str → Bool
  | [] => p == []
  | c :: rest => p.isPrefixOf (c :: rest) || isInfixB p rest

theorem isInfixB_iff {p s : Str} : isInfixB p s = true ↔ p <:+: s := by
  induction s with
  | nil =>
    show (p == []) = true ↔ _
    simp
  | cons c rest ih =>
    show (p.isPrefixOf (c :: rest) || isInfixB p rest) = true ↔ _
    rw [Bool.or_eq_true, List.infix_cons_iff, List.isPrefixOf_iff_prefix, ih]

theorem infix_of_isInfixB {p s : Str} (h : isInfixB p s = true) : p <:+: s :=
  isInfixB_iff.mp h

theorem not_infix_of_isInfixB {p s : Str} (h : isInfixB p s = false) :
    ¬ p <:+: s := fun hk => by
  rw [isInfixB_iff.mpr hk] at h
  exact absurd h (by simp)

/-! ## Claim theorems -/

/-- C10: `chunk76` is content-preserving: concatenating the produced slices
restores the input, every slice has length at most 76, the result joins the
slices with CRLF, and the empty input yields the empty string. -/
theorem chunk76_spec (s : Str) :
    (chunk76Aux s.length s).flatten = s ∧
    (∀ l ∈ chunk76Aux s.length s, l.length ≤ 76) ∧
    chunk76 s = joinSep crlf (chunk76Aux s.length s) ∧
    chunk76 [] = [] :=
  ⟨chunk76_lines_flatten s, chunk76_lines_le s, rfl, rfl⟩

/-- Witness for C10 at a concrete input. -/
theorem chunk76_spec_witness :
    (chunk76Aux (lit "abc").length (lit "abc")).flatten = lit "abc" ∧
    (∀ l ∈ chunk76Aux (lit "abc").length (lit "abc"), l.length ≤ 76) ∧
    chunk76 (lit "abc") = joinSep crlf (chunk76Aux (lit "abc").length (lit "abc")) ∧
    chunk76 [] = [] :=
  chunk76_spec (lit "abc")

/-- C5: the key validator succeeds exactly when the key starts with
`users/<uid>/` in tenancy mode, or with one of the two configured prefixes
otherwise; every failure is `forbiddenKey` (403) in tenancy mode and
`invalidKey` (400) in prefix mode.  The embedding `validateKeyPrefix` is a
pure function of its arguments, performing no I/O and no state change. -/
theorem validateKeyPrefix_spec (recPfx trPfx key uid : Str) :
    (validateKeyPrefix true recPfx trPfx key uid = .ok () ↔
      (lit "users/" ++ uid ++ lit "/").isPrefixOf key = true) ∧
    (validateKeyPrefix true recPfx trPfx key uid = .ok () ∨
      validateKeyPrefix true recPfx trPfx key uid =
        .error (.forbiddenKey key)) ∧
    (validateKeyPrefix false recPfx trPfx key uid = .ok () ↔
      (recPfx.isPrefixOf key || trPfx.isPrefixOf key) = true) ∧
    (validateKeyPrefix false recPfx trPfx key uid = .ok () ∨
      validateKeyPrefix false recPfx trPfx key uid =
        .error (.invalidKey key)) ∧
    keyErrStatus (.forbiddenKey key) = 403 ∧
    keyErrStatus (.invalidKey key) = 400 := by
  refine ⟨?_, ?_, ?_, ?_, rfl, rfl⟩
  · by_cases hp : (lit "users/" ++ uid ++ lit "/").isPrefixOf key = true <;>
      simp [validateKeyPrefix, hp]
  · by_cases hp : (lit "users/" ++ uid ++ lit "/").isPrefixOf key = true
    · left
      unfold validateKeyPrefix
      rw [if_pos rfl, if_pos hp]
    · right
      unfold validateKeyPrefix
      rw [if_pos rfl, if_neg hp]
  · by_cases hp : (recPfx.isPrefixOf key || trPfx.isPrefixOf key) = true <;>
      simp [validateKeyPrefix, hp]
  · by_cases hp : (recPfx.isPrefixOf key || trPfx.isPrefixOf key) = true
    · left
      unfold validateKeyPrefix
      rw [if_neg (by simp), if_pos hp]
    · right
      unfold validateKeyPrefix
      rw [if_neg (by simp), if_neg hp]

/-- Instance of C5 at concrete values. -/
theorem validateKeyPrefix_spec_witness :
    validateKeyPrefix false (lit "recordings/") (lit "transcriptions/")
      (lit "recordings/a.m4a") (lit "u1") = .ok () ∧
    validateKeyPrefix true (lit "recordings/") (lit "transcriptions/")
      (lit "recordings/a.m4a") (lit "u1") =
      .error (.forbiddenKey (lit "recordings/a.m4a")) := by
  have h := validateKeyPrefix_spec (lit "recordings/") (lit "transcriptions/")
    (lit "recordings/a.m4a") (lit "u1")
  refine ⟨h.2.2.1.mpr (by decide), ?_⟩
  rcases h.2.1 with h1 | h1
  · exact absurd (h.1.mp h1) (by decide)
  · exact h1

/-- The sum of the raw sizes of all present assets, as the claim words it. -/
def specCombinedBytes (meta : List AssetMeta) : Nat :=
  (meta.map AssetMeta.size).sum

/-- The claim's base64-encoded size: `ceil(size/3)*4` summed over all
assets. -/
def specEncodedBytes (meta : List AssetMeta) : Nat :=
  (meta.map (fun m => (m.size + 2) / 3 * 4)).sum

/-- The metadata list built by the handler: the Recording asset (when
present) followed by the Transcription asset (when present). -/
def handlerMetaList (rec tr : Option AssetMeta) : List AssetMeta :=
  rec.toList ++ tr.toList

/-- C1: the handler chooses attachments mode exactly when a Recording
asset is present, the combined raw size is at most `ATTACH_LIMIT_MB` MiB,
and the base64-expanded size plus the 48 KiB MIME overhead stays strictly
under the 10 MiB SES transport ceiling. -/
theorem wantAttachments_iff (attachLimitMB : Nat) (rec tr : Option AssetMeta)
    (hr : ∀ m ∈ rec, m.label = lit "Recording")
    (ht : ∀ m ∈ tr, m.label = lit "Transcription") :
    (wantAttachments attachLimitMB (handlerMetaList rec tr) = true ↔
      (rec.isSome = true ∧
       specCombinedBytes (handlerMetaList rec tr) ≤ attachLimitMB * MB ∧
       specEncodedBytes (handlerMetaList rec tr) + MIME_OVERHEAD_BYTES <
         SES_MAX_BYTES)) := by
  have hb1 : (lit "Recording" == lit "Recording") = true := by decide
  have hb2 : (lit "Recording" == lit "Transcription") = false := by decide
  have hb3 : (lit "Transcription" == lit "Recording") = false := by decide
  have hb4 : (lit "Transcription" == lit "Transcription") = true := by decide
  cases rec with
  | none =>
    cases tr with
    | none => simp [wantAttachments, handlerMetaList]
    | some t =>
      have hlt : t.label = lit "Transcription" := ht t (by simp)
      simp [wantAttachments, handlerMetaList, List.find?, hlt, hb3, hb4]
  | some r =>
    have hlr : r.label = lit "Recording" := hr r (by simp)
    cases tr with
    | none =>
      have hf1 : List.find? (fun m => m.label == lit "Recording") [r] =
          some r := by
        simp [List.find?, hlr, hb1]
      have hf2 : List.find? (fun m => m.label == lit "Transcription") [r] =
          none := by
        simp [List.find?, hlr, hb2]
      simp [wantAttachments, handlerMetaList, hf1, hf2,
        fitsSesLimitWhenBase64, specCombinedBytes, specEncodedBytes]
    | some t =>
      have hlt : t.label = lit "Transcription" := ht t (by simp)
      have hf1 : List.find? (fun m => m.label == lit "Recording") [r, t] =
          some r := by
        simp [List.find?, hlr, hb1]
      have hf2 : List.find? (fun m => m.label == lit "Transcription") [r, t] =
          some t := by
        simp [List.find?, hlr, hlt, hb2, hb4]
      simp [wantAttachments, handlerMetaList, hf1, hf2,
        fitsSesLimitWhenBase64, specCombinedBytes, specEncodedBytes]

/-- Instance of C1 at concrete metadata (a 3 MiB recording plus a small
transcription fits; the decision is `Attachments`). -/
theorem wantAttachments_iff_witness :
    wantAttachments 9
      (handlerMetaList
        (some ⟨lit "recordings/r.m4a", lit "Recording", 3 * MB, lit "audio/mp4"⟩)
        (some ⟨lit "transcriptions/t.txt", lit "Transcription", 100,
          lit "text/plain"⟩)) = true := by
  refine (wantAttachments_iff 9 _ _ ?_ ?_).mpr ⟨rfl, by decide, by decide⟩
  · intro m hm
    simp only [Option.mem_def, Option.some.injEq] at hm
    subst hm
    rfl
  · intro m hm
    simp only [Option.mem_def, Option.some.injEq] at hm
    subst hm
    rfl

/-- C7 counterexample: the shared `buildHtml` interpolates the url value
verbatim into the `href` attribute, so a url containing `"` and `<`
appears unescaped in the rendered HTML, while `renderEmailHtml` escapes
it. -/
theorem buildHtml_url_unescaped_cex :
    (lit "\"zq<z") <:+:
      buildHtml (lit "m") [⟨lit "L", lit "k", lit "\"zq<z"⟩] ∧
    ¬ (lit "\"zq<z") <:+:
      renderEmailHtml [⟨lit "L", lit "k", lit "\"zq<z"⟩] false (lit "2025") :=
  ⟨infix_of_isInfixB (by decide), not_infix_of_isInfixB (by decide)⟩

/-- C7 (amended): `escapeHtml` output never contains a raw `<`, `>`, `"`
or `'`, every `&` in it starts one of the five escape entities, and in
`renderEmailHtml`'s link blocks the number of raw metacharacters is
independent of the interpolated label, key and url — none of their
metacharacters leaks, the `href` url included. -/
theorem renderEmailHtml_escapes (s : Str) (x : Char) (hx : x ∈ metaChars4)
    (l₁ l₂ : DownloadLink) :
    (escapeHtml s).count x = 0 ∧
    ampOk (escapeHtml s) = true ∧
    (linkBlockHtml l₁).count x = (linkBlockHtml l₂).count x := by
  refine ⟨escapeHtml_count_zero x hx s, ampOk_escapeHtml s, ?_⟩
  simp [linkBlockHtml, List.count_append, escapeHtml_count_zero x hx]

/-- Instance of C7's amended theorem at concrete values. -/
theorem renderEmailHtml_escapes_witness :
    (escapeHtml (lit "<a&\"b")).count '<' = 0 ∧
    ampOk (escapeHtml (lit "<a&\"b")) = true ∧
    (linkBlockHtml ⟨lit "L", lit "k", lit "u\"<"⟩).count '<' =
      (linkBlockHtml ⟨lit "", lit "", lit ""⟩).count '<' :=
  renderEmailHtml_escapes (lit "<a&\"b") '<' (by decide) _ _

/-- C8 counterexample: with `hasAttachments = true` and a non-empty links
list, `renderEmailText` still renders the link list (the output differs
from the empty-links output and contains the `Downloads:` section). -/
theorem renderers_hasAttachments_cex :
    renderEmailText [⟨lit "Recording", lit "recordings/a.m4a", lit "u"⟩]
      true ≠ renderEmailText [] true ∧
    (lit "Downloads:") <:+:
      renderEmailText [⟨lit "Recording", lit "recordings/a.m4a", lit "u"⟩]
        true :=
  ⟨by decide, infix_of_isInfixB (by decide)⟩

/-- C8 (amended): with an empty links list — the only links value the
handler passes in attachments mode — both renderers state that the files
are attached and render no link enumeration; with a non-empty list the
text renderer enumerates the links even when `hasAttachments` is true. -/
theorem renderers_attached_empty_links (l : DownloadLink)
    (ls : List DownloadLink) :
    renderEmailText [] true = lit "\nFiles are attached to this email." ∧
    (lit "Files are attached to this email.") <:+:
      renderEmailHtml [] true (lit "2025") ∧
    (¬ (lit "Downloads:") <:+: renderEmailText [] true) ∧
    (¬ (lit "Downloads:") <:+: renderEmailHtml [] true (lit "2025")) ∧
    (lit "Downloads:") <:+: renderEmailText (l :: ls) true := by
  refine ⟨by decide, infix_of_isInfixB (by decide),
    not_infix_of_isInfixB (by decide), not_infix_of_isInfixB (by decide), ?_⟩
  unfold renderEmailText
  rw [if_pos (by simp)]
  exact mem_infix_joinSep (by simp)

/-- Instance of C8's amended theorem at a concrete link. -/
theorem renderers_attached_empty_links_witness :
    (lit "Downloads:") <:+:
      renderEmailText
        [⟨lit "Recording", lit "recordings/a.m4a", lit "u"⟩] true :=
  (renderers_attached_empty_links
    ⟨lit "Recording", lit "recordings/a.m4a", lit "u"⟩ []).2.2.2.2

/-- C9 counterexample: for a non-empty links list the text renderer emits
`- label: url` lines, not the claimed `label — filename: url` form, and
the shared `buildText` emits `- label: url  (key)`. -/
theorem renderEmailText_format_cex :
    renderEmailText [⟨lit "Recording", lit "recordings/a.m4a", lit "u"⟩]
        false =
      lit "\nDownloads:\n- Recording: u\n\nIf a link expires, resend from the app to generate a fresh one." ∧
    ¬ (lit "Recording — a.m4a: u") <:+:
      renderEmailText [⟨lit "Recording", lit "recordings/a.m4a", lit "u"⟩]
        false ∧
    ¬ (lit "Recording — a.m4a: u") <:+:
      buildText (lit "m")
        [⟨lit "Recording", lit "recordings/a.m4a", lit "u"⟩] :=
  ⟨by decide, not_infix_of_isInfixB (by decide),
    not_infix_of_isInfixB (by decide)⟩

/-- C9 (amended): for every non-empty links list with
`hasAttachments = false`, the rendered text body contains the line
`- label: url` for each link and the expiry note, and the shared
`buildText` body contains `- label: url  (key)` for each link and its
expiry note. -/
theorem renderEmailText_buildText_enumerate (links : List DownloadLink)
    (msg : Str) (h : links ≠ []) :
    (∀ l ∈ links, (lit "- " ++ l.label ++ lit ": " ++ l.url) <:+:
      renderEmailText links false) ∧
    ((lit "If a link expires, resend from the app to generate a fresh one.")
      <:+: renderEmailText links false) ∧
    (∀ l ∈ links, (lit "- " ++ l.label ++ lit ": " ++ l.url ++ lit "  (" ++
      l.key ++ lit ")") <:+: buildText msg links) ∧
    ((lit "If a link expires, re-send from the app to generate a fresh one.\n")
      <:+: buildText msg links) := by
  have hlen : links.length ≠ 0 := by
    cases links with
    | nil => exact absurd rfl h
    | cons a as => simp
  have hrt : renderEmailText links false =
      joinSep (lit "\n")
        ([[]] ++ [lit "Downloads:"] ++
          links.map (fun l => lit "- " ++ l.label ++ lit ": " ++ l.url) ++
          [[], lit "If a link expires, resend from the app to generate a fresh one."]) := by
    unfold renderEmailText
    rw [if_pos hlen]
  have hbt : buildText msg links =
      (msg ++ lit "\n\n" ++ lit "Downloads:\n") ++
      joinSep (lit "\n") (links.map (fun l =>
        lit "- " ++ l.label ++ lit ": " ++ l.url ++ lit "  (" ++ l.key ++
        lit ")")) ++
      (lit "\n" ++
        lit "If a link expires, re-send from the app to generate a fresh one.\n") := by
    simp [buildText, hlen, List.append_assoc]
  refine ⟨?_, ?_, ?_, ?_⟩
  · intro l hl
    rw [hrt]
    refine mem_infix_joinSep ?_
    simp only [List.mem_append, List.mem_map]
    left
    right
    exact ⟨l, hl, rfl⟩
  · rw [hrt]
    exact mem_infix_joinSep (by simp)
  · intro l hl
    rw [hbt]
    refine infix_extend_right _ (infix_extend_left _ (mem_infix_joinSep ?_))
    exact List.mem_map.mpr ⟨l, hl, rfl⟩
  · rw [hbt]
    have he : (msg ++ lit "\n\n" ++ lit "Downloads:\n") ++
        joinSep (lit "\n") (links.map (fun l =>
          lit "- " ++ l.label ++ lit ": " ++ l.url ++ lit "  (" ++ l.key ++
          lit ")")) ++
        (lit "\n" ++
          lit "If a link expires, re-send from the app to generate a fresh one.\n") =
        ((msg ++ lit "\n\n" ++ lit "Downloads:\n") ++
          joinSep (lit "\n") (links.map (fun l =>
            lit "- " ++ l.label ++ lit ": " ++ l.url ++ lit "  (" ++ l.key ++
            lit ")")) ++ lit "\n") ++
          lit "If a link expires, re-send from the app to generate a fresh one.\n" := by
      simp [List.append_assoc]
    rw [he]
    exact infix_extend_left _ (List.infix_refl _)

/-- Instance of C9's amended theorem at a concrete link. -/
theorem renderEmailText_buildText_enumerate_witness :
    (lit "- " ++ lit "Recording" ++ lit ": " ++ lit "u") <:+:
      renderEmailText [⟨lit "Recording", lit "recordings/a.m4a", lit "u"⟩]
        false :=
  (renderEmailText_buildText_enumerate
    [⟨lit "Recording", lit "recordings/a.m4a", lit "u"⟩] (lit "m")
    (by simp)).1 ⟨lit "Recording", lit "recordings/a.m4a", lit "u"⟩ (by simp)

/-- C4: at the very inputs the handler produces in attachments mode, the
built raw message contains a line feed that is not preceded by a carriage
return — the rendered text body starts with a bare `\n` — while every
base64 attachment body line still respects the 76-character bound. -/
theorem buildMime_bareLF_eval :
    hasBareLF (buildMimeMixed (lit "no-reply@primedictation.com")
      (lit "a@b.c") (lit "Prime Dictation") (renderEmailText [] true)
      (renderEmailHtml [] true (lit "2025"))
      [⟨lit "t.m4a", lit "audio/mp4", [1, 2, 3]⟩]
      (lit "mixed_ab12cd34") (lit "alt_ef56gh78")) = true ∧
    (∀ l ∈ chunk76Aux (base64Encode [1, 2, 3]).length (base64Encode [1, 2, 3]),
      l.length ≤ 76) :=
  ⟨by decide, chunk76_lines_le _⟩

/-- Environment used by the C2 evaluation. -/
def envC2 : Env :=
  ⟨lit "no-reply@primedictation.com", false, lit "recordings/",
    lit "transcriptions/", 9⟩

/-- Storage oracle holding exactly one transcription object. -/
def storageC2 : Storage :=
  ⟨fun k => if k = lit "transcriptions/t.txt" then
      some ⟨some 5, some (lit "text/plain")⟩
    else none,
   fun _ => some [72],
   fun k _ => lit "https://presigned/" ++ k,
   fun k => lit "https://presigned/" ++ k⟩

/-- A request carrying only a transcription key (Recording absent). -/
def reqC2 : Request := ⟨lit "a@b.c", none, some (lit "transcriptions/t.txt")⟩

/-- C2: when the Recording asset is absent, the raw-attachment handler
executes a bare `return` — no email, no links, no response — while the
authenticated handler completes in Links mode: a presigned link is issued
for the transcription and a structured email is submitted. -/
theorem handler2_abandons_without_recording :
    handler2 envC2 storageC2 reqC2 (lit "m1") (lit "a1") (lit "2025") =
      .abandoned ∧
    resultEmail (handler2 envC2 storageC2 reqC2 (lit "m1") (lit "a1")
      (lit "2025")) = none ∧
    resultLinks (handler2 envC2 storageC2 reqC2 (lit "m1") (lit "a1")
      (lit "2025")) = [] ∧
    resultLinks (handler3 envC2 storageC2 (some (lit "u1")) reqC2 (lit "m1")
      (lit "a1") (lit "2025")) =
      [⟨lit "Transcription", lit "transcriptions/t.txt",
        lit "https://presigned/transcriptions/t.txt"⟩] ∧
    (resultEmail (handler3 envC2 storageC2 (some (lit "u1")) reqC2 (lit "m1")
      (lit "a1") (lit "2025"))).isSome = true :=
  ⟨by decide, by decide, by decide, by decide, by decide⟩

theorem resolveAssets_miss (env : Env) (st : Storage) (uid : Str) :
    ∀ items : List (Str × Str),
    (∀ p ∈ items,
      validateKeyPrefix env.requireUidPrefix env.recordingsPrefix
        env.transcriptionsPrefix p.1 uid = .ok ()) →
    (∃ p ∈ items, st.head p.1 = none) →
    ∃ k, (∃ l, (k, l) ∈ items) ∧ st.head k = none ∧
      resolveAssets env st uid items = .error (.assetNotFound k) := by
  intro items
  induction items with
  | nil =>
    intro _ hmiss
    simp at hmiss
  | cons p rest ih =>
    intro hval hmiss
    obtain ⟨key, label⟩ := p
    cases hsome : st.head key with
    | none =>
      refine ⟨key, ⟨label, by simp⟩, hsome, ?_⟩
      simp only [resolveAssets, hval (key, label) (by simp), hsome]
      rfl
    | some hi =>
      have hmiss2 : ∃ q ∈ rest, st.head q.1 = none := by
        rcases hmiss with ⟨q, hq, hqn⟩
        rcases List.mem_cons.mp hq with rfl | hq2
        · rw [hsome] at hqn
          exact absurd hqn (by simp)
        · exact ⟨q, hq2, hqn⟩
      obtain ⟨k, ⟨l, hkl⟩, hkn, herr⟩ :=
        ih (fun q hq => hval q (by simp [hq])) hmiss2
      refine ⟨k, ⟨l, by simp [hkl]⟩, hkn, ?_⟩
      simp only [resolveAssets, hval (key, label) (by simp), hsome, herr]
      rfl

/-- C6: if the metadata probe reports non-existence for any referenced
asset (and the keys themselves validate, so resolution is reached), the
whole request fails with an `assetNotFound` error: no email is submitted
and no presigned link is returned, including for assets whose probes
succeeded. -/
theorem handler3_assetNotFound (env : Env) (st : Storage) (uid : Str)
    (req : Request) (bm ba currentYear : Str)
    (hto : req.toEmail ≠ [])
    (hval : ∀ p ∈ itemsOf req,
      validateKeyPrefix env.requireUidPrefix env.recordingsPrefix
        env.transcriptionsPrefix p.1 uid = .ok ())
    (hmiss : ∃ p ∈ itemsOf req, st.head p.1 = none) :
    ∃ k, (∃ l, (k, l) ∈ itemsOf req) ∧ st.head k = none ∧
      handler3 env st (some uid) req bm ba currentYear =
        .failed (.assetNotFound k) ∧
      resultEmail (handler3 env st (some uid) req bm ba currentYear) =
        none ∧
      resultLinks (handler3 env st (some uid) req bm ba currentYear) =
        [] := by
  obtain ⟨k, hkmem, hkn, herr⟩ :=
    resolveAssets_miss env st uid (itemsOf req) hval hmiss
  have hh : handler3 env st (some uid) req bm ba currentYear =
      .failed (.assetNotFound k) := by
    unfold handler3
    simp [herr, hto]
  exact ⟨k, hkmem, hkn, hh, by rw [hh]; rfl, by rw [hh]; rfl⟩

/-- Storage oracle with no objects at all. -/
def storageC6 : Storage :=
  ⟨fun _ => none,
   fun _ => some [72],
   fun k _ => lit "https://presigned/" ++ k,
   fun k => lit "https://presigned/" ++ k⟩

/-- A request referencing one recording whose probe will miss. -/
def reqC6 : Request := ⟨lit "a@b.c", some (lit "recordings/r.m4a"), none⟩

/-- Instance of C6 at a concrete request and storage. -/
theorem handler3_assetNotFound_witness :
    handler3 envC2 storageC6 (some (lit "u1")) reqC6 (lit "m1") (lit "a1")
      (lit "2025") = .failed (.assetNotFound (lit "recordings/r.m4a")) := by
  obtain ⟨k, ⟨l, hkl⟩, _, herr, _, _⟩ :=
    handler3_assetNotFound envC2 storageC6 (lit "u1") reqC6 (lit "m1")
      (lit "a1") (lit "2025") (by decide)
      (by intro p hp
          rcases List.mem_singleton.mp hp with rfl
          rfl)
      ⟨(lit "recordings/r.m4a", lit "Recording"), by simp [itemsOf, reqC6], rfl⟩
  have hk : k = lit "recordings/r.m4a" := by
    have : (k, l) ∈ [(lit "recordings/r.m4a", lit "Recording")] := hkl
    simp at this
    exact this.1
  rw [hk] at herr
  exact herr

/-! ## Decomposition of the built message -/

theorem altSection_eq (bm ba text html : Str) :
    altSection bm ba text html =
      lit "--" ++ bm ++ crlf ++ altInner ba text html ++ crlf := by
  simp [altSection, altInner, ctLineAlt, textInner, htmlInner,
    List.append_assoc]

theorem attachmentSection_eq (bm : Str) (att : MimeAttachment) :
    attachmentSection bm att =
      lit "--" ++ bm ++ crlf ++ attInner att ++ crlf := by
  simp [attachmentSection, attInner, attHdrs, attCtLine, attCdLine,
    List.append_assoc]

theorem splitParts_sectionsBody {sep : Str} (hsl : 2 < sep.length) :
    ∀ secs : List Str, (∀ m ∈ secs, cleanBefore sep m = true) →
      splitParts sep (sectionsBody sep secs) = secs ++ [lit "--"] := by
  intro secs
  induction secs with
  | nil =>
    intro _
    exact splitParts_single (breakOnSeq_none_of_short (by simpa using hsl))
  | cons m rest ih =>
    intro hcl
    show splitParts sep (m ++ sep ++ sectionsBody sep rest) = _
    rw [splitParts_cons m (sectionsBody sep rest)
        (by intro he; rw [he] at hsl; simp at hsl)
        (noOccBefore_of_cleanBefore _ (hcl m (by simp))),
      ih (fun q hq => hcl q (by simp [hq]))]
    rfl

theorem splitParts_sep_lead {sep : Str} (hsep : sep ≠ []) (x : Str) :
    splitParts sep (sep ++ x) = [] :: splitParts sep x := by
  have h := splitParts_cons [] x hsep (by simp [noOccBefore])
  simpa using h

theorem tail_decomp (bm : Str) : ∀ atts : List MimeAttachment,
    crlf ++ ((atts.map (attachmentSection bm)).flatten ++
      (lit "--" ++ bm ++ lit "--")) =
    (crlf ++ lit "--" ++ bm) ++
      sectionsBody (crlf ++ lit "--" ++ bm)
        (atts.map (fun a => crlf ++ attInner a)) := by
  intro atts
  induction atts with
  | nil => simp [sectionsBody, List.append_assoc]
  | cons a as ih =>
    simp only [List.map_cons, List.flatten_cons, sectionsBody]
    rw [attachmentSection_eq]
    simp only [List.append_assoc] at ih ⊢
    rw [ih]

theorem body_decomp (bm ba text html : Str) (atts : List MimeAttachment) :
    crlf ++ (altSection bm ba text html ++
      ((atts.map (attachmentSection bm)).flatten ++
        (lit "--" ++ bm ++ lit "--"))) =
    (crlf ++ lit "--" ++ bm) ++
      sectionsBody (crlf ++ lit "--" ++ bm)
        ((crlf ++ altInner ba text html) ::
          atts.map (fun a => crlf ++ attInner a)) := by
  rw [altSection_eq]
  have ht := tail_decomp bm atts
  simp only [sectionsBody, List.append_assoc] at ht ⊢
  rw [ht]

theorem altBody_decomp (ba text html : Str) :
    crlf ++ (lit "--" ++ ba ++ crlf ++ textInner text ++ crlf ++
      lit "--" ++ ba ++ crlf ++ htmlInner html ++ crlf ++
      lit "--" ++ ba ++ lit "--") =
    (crlf ++ lit "--" ++ ba) ++
      sectionsBody (crlf ++ lit "--" ++ ba)
        [crlf ++ textInner text, crlf ++ htmlInner html] := by
  simp [sectionsBody, List.append_assoc]

theorem mapM_option_some {α β : Type} (f : α → Option β) (g : α → β) :
    ∀ l : List α, (∀ m ∈ l, f m = some (g m)) → l.mapM f = some (l.map g) := by
  intro l
  induction l with
  | nil => intro _; rfl
  | cons x xs ih =>
    intro h
    rw [List.mapM_cons, h x (by simp), ih (fun m hm => h m (by simp [hm]))]
    rfl

theorem splitMultipart_eq (bnd body : Str) (inners : List Str)
    (hbody : crlf ++ body =
      (crlf ++ lit "--" ++ bnd) ++
        sectionsBody (crlf ++ lit "--" ++ bnd)
          (inners.map (fun m => crlf ++ m)))
    (hcl : ∀ m ∈ inners,
      cleanBefore (crlf ++ lit "--" ++ bnd) (crlf ++ m) = true) :
    splitMultipart bnd body = some inners := by
  have hne : (crlf ++ lit "--" ++ bnd) ≠ [] := by simp [crlf]
  have hsl : 2 < (crlf ++ lit "--" ++ bnd).length := by
    simp [crlf, lit]
  unfold splitMultipart
  dsimp only
  rw [hbody, splitParts_sep_lead hne,
    splitParts_sectionsBody hsl _
      (fun m hm => by
        obtain ⟨x, hx, rfl⟩ := List.mem_map.mp hm
        exact hcl x hx)]
  have hpre : (lit "--").isPrefixOf (lit "--") = true := by decide
  have hmapm : (List.map (fun m => crlf ++ m) inners).mapM
      (fun m => if crlf.isPrefixOf m = true then some (m.drop 2) else none) =
      some ((List.map (fun m => crlf ++ m) inners).map (fun m => m.drop 2)) :=
    mapM_option_some _ _ _ (fun m hm => by
      obtain ⟨x, hx, rfl⟩ := List.mem_map.mp hm
      rw [if_pos (isPrefixOf_self_append crlf x)])
  have hmm2 : (List.map (fun m => crlf ++ m) inners).map
      (fun m => m.drop 2) = inners := by
    rw [List.map_map]
    have hcomp : ((fun m => List.drop 2 m) ∘ fun m => crlf ++ m) =
        fun m => m := by
      funext x
      exact List.drop_left crlf x
    rw [hcomp, List.map_id']
  dsimp only
  rw [if_pos rfl, List.reverse_append]
  simp only [List.reverse_cons, List.reverse_nil, List.nil_append,
    List.singleton_append]
  rw [if_pos hpre, List.reverse_reverse]
  exact hmapm.trans (by rw [hmm2])

theorem dropSpaces_space (s : Str) : dropSpaces (' ' :: s) = dropSpaces s :=
  rfl

theorem dropSpaces_ne {c : Char} (h : (c == ' ') = false) (s : Str) :
    dropSpaces (c :: s) = c :: s := by
  unfold dropSpaces
  rw [List.dropWhile_cons, h]
  rfl

theorem takeWhile_no_quote (val : Str) (hval : ∀ c ∈ val, ¬(c = '"'))
    (tail : Str) :
    (val ++ '"' :: tail).takeWhile (fun c => c ≠ '"') = val := by
  induction val with
  | nil =>
    show List.takeWhile (fun c => decide (c ≠ '"')) ('"' :: tail) = []
    rw [List.takeWhile_cons]
    simp
  | cons c cs ih =>
    have hc : ¬ c = '"' := hval c (by simp)
    have ih2 := ih (fun d hd => hval d (by simp [hd]))
    show List.takeWhile (fun c => decide (c ≠ '"'))
      (c :: (cs ++ '"' :: tail)) = c :: cs
    rw [List.takeWhile_cons]
    have hd : decide (c ≠ '"') = true := by simp [hc]
    rw [hd, if_pos rfl, ih2]

theorem extractParam_eq (marker pre val tail : Str) (hm : marker ≠ [])
    (hno : cleanBefore marker pre = true)
    (hval : ∀ c ∈ val, ¬(c = '"')) :
    extractParam marker (pre ++ marker ++ (val ++ '"' :: tail)) = some val := by
  unfold extractParam
  rw [breakOnSeq_at pre (val ++ '"' :: tail) hm
    (noOccBefore_of_cleanBefore _ hno)]
  show some ((val ++ '"' :: tail).takeWhile (fun c => c ≠ '"')) = some val
  rw [takeWhile_no_quote val hval tail]

theorem parsePart_eq {hdrs bodyP : Str}
    (h : cleanBefore (crlf ++ crlf) hdrs = true) :
    parsePart (hdrs ++ (crlf ++ crlf) ++ bodyP) =
      some ⟨splitParts crlf hdrs, bodyP⟩ := by
  unfold parsePart
  rw [breakOnSeq_at hdrs bodyP (by simp [crlf])
    (noOccBefore_of_cleanBefore _ h)]

theorem safeNameOf_no_quote (f : Str) : ∀ c ∈ safeNameOf f, ¬(c = '"') := by
  intro c hc
  obtain ⟨x, _, rfl⟩ := List.mem_map.mp hc
  by_cases hx : x = '"' <;> simp [hx]

theorem safeNameOf_id : ∀ {f : Str}, (∀ c ∈ f, ¬(c = '"')) →
    safeNameOf f = f := by
  intro f
  induction f with
  | nil => intro _; rfl
  | cons c cs ih =>
    intro h
    show (if c = '"' then '\'' else c) :: safeNameOf cs = c :: cs
    rw [if_neg (h c (by simp)), ih (fun d hd => h d (by simp [hd]))]

theorem hdrBlock_split (frm toAddr subject bm : Str)
    (h2 : cleanBefore crlf (lit "From: " ++ frm) = true)
    (h3 : cleanBefore crlf (lit "To: " ++ toAddr) = true)
    (h4 : cleanBefore crlf (lit "Subject: " ++ subject) = true)
    (h5 : noOccAll crlf (ctLineMixed bm) = true) :
    splitParts crlf (hdrBlock frm toAddr subject bm) =
      [lit "From: " ++ frm, lit "To: " ++ toAddr, lit "Subject: " ++ subject,
       lit "MIME-Version: 1.0", ctLineMixed bm] := by
  have hne : crlf ≠ [] := by simp [crlf]
  have hmime : cleanBefore crlf (lit "MIME-Version: 1.0") = true := by decide
  show splitParts crlf
    ((lit "From: " ++ frm) ++ crlf ++
      ((lit "To: " ++ toAddr) ++ crlf ++
        ((lit "Subject: " ++ subject) ++ crlf ++
          ((lit "MIME-Version: 1.0") ++ crlf ++ ctLineMixed bm)))) = _
  rw [splitParts_cons _ _ hne (noOccBefore_of_cleanBefore _ h2),
    splitParts_cons _ _ hne (noOccBefore_of_cleanBefore _ h3),
    splitParts_cons _ _ hne (noOccBefore_of_cleanBefore _ h4),
    splitParts_cons _ _ hne (noOccBefore_of_cleanBefore _ hmime),
    splitParts_single (breakOnSeq_none h5)]

theorem headerValue_ct_five (frm toAddr subject bm : Str) :
    headerValue (lit "Content-Type:")
      [lit "From: " ++ frm, lit "To: " ++ toAddr, lit "Subject: " ++ subject,
       lit "MIME-Version: 1.0", ctLineMixed bm] =
      some (dropSpaces ((ctLineMixed bm).drop 13)) := by
  unfold headerValue
  have hf : (lit "Content-Type:").isPrefixOf (lit "From: " ++ frm) = false :=
    isPrefixOf_append_false _ (by decide)
  have ht2 : (lit "Content-Type:").isPrefixOf (lit "To: " ++ toAddr) =
      false :=
    isPrefixOf_append_false _ (by decide)
  have hs2 : (lit "Content-Type:").isPrefixOf (lit "Subject: " ++ subject) =
      false :=
    isPrefixOf_append_false _ (by decide)
  have hm2 : (lit "Content-Type:").isPrefixOf (lit "MIME-Version: 1.0") =
      false := by decide
  have hc : (lit "Content-Type:").isPrefixOf (ctLineMixed bm) = true := by
    show (lit "Content-Type:").isPrefixOf
      (lit "Content-Type: multipart/mixed; boundary=\"" ++
        (bm ++ lit "\"")) = true
    rw [isPrefixOf_append_of_le _ (by decide)]
    decide
  simp only [List.find?, hf, ht2, hs2, hm2, hc]
  rfl

theorem ctMixed_value (bm : Str) :
    dropSpaces ((ctLineMixed bm).drop 13) =
      lit "multipart/mixed; " ++ lit "boundary=\"" ++ (bm ++ '"' :: []) := by
  show dropSpaces
    ((lit "Content-Type: multipart/mixed; boundary=\"" ++
      (bm ++ lit "\"")).drop 13) = _
  rw [List.drop_append_of_le_length (by decide)]
  show dropSpaces (' ' ::
    (lit "multipart/mixed; boundary=\"" ++ (bm ++ lit "\""))) = _
  rw [dropSpaces_space]
  show dropSpaces ('m' ::
    (lit "ultipart/mixed; boundary=\"" ++ (bm ++ lit "\""))) = _
  rw [dropSpaces_ne (by decide)]
  rfl

theorem headerValue_ct_alt (ba : Str) :
    headerValue (lit "Content-Type:") [ctLineAlt ba] =
      some (dropSpaces ((ctLineAlt ba).drop 13)) := by
  unfold headerValue
  have hc : (lit "Content-Type:").isPrefixOf (ctLineAlt ba) = true := by
    show (lit "Content-Type:").isPrefixOf
      (lit "Content-Type: multipart/alternative; boundary=\"" ++
        (ba ++ lit "\"")) = true
    rw [isPrefixOf_append_of_le _ (by decide)]
    decide
  simp only [List.find?, hc]
  rfl

theorem ctAlt_value (ba : Str) :
    dropSpaces ((ctLineAlt ba).drop 13) =
      lit "multipart/alternative; " ++ lit "boundary=\"" ++
        (ba ++ '"' :: []) := by
  show dropSpaces
    ((lit "Content-Type: multipart/alternative; boundary=\"" ++
      (ba ++ lit "\"")).drop 13) = _
  rw [List.drop_append_of_le_length (by decide)]
  show dropSpaces (' ' ::
    (lit "multipart/alternative; boundary=\"" ++ (ba ++ lit "\""))) = _
  rw [dropSpaces_space]
  show dropSpaces ('m' ::
    (lit "ultipart/alternative; boundary=\"" ++ (ba ++ lit "\""))) = _
  rw [dropSpaces_ne (by decide)]
  rfl

theorem parseTextPart_eq (expectedCT hdrs text v : Str)
    (hclean : cleanBefore (crlf ++ crlf) hdrs = true)
    (hv : headerValue (lit "Content-Type:") (splitParts crlf hdrs) = some v)
    (hp : expectedCT.isPrefixOf v = true) :
    parseTextPart expectedCT (hdrs ++ (crlf ++ crlf) ++ text) = some text := by
  unfold parseTextPart
  rw [parsePart_eq hclean]
  show (headerValue (lit "Content-Type:") (splitParts crlf hdrs)).bind
    (fun ct => if expectedCT.isPrefixOf ct = true then some text
      else none) = some text
  rw [hv]
  show (if expectedCT.isPrefixOf v = true then some text else none) =
    some text
  rw [if_pos hp]

theorem parseText_textInner (text : Str) :
    parseTextPart (lit "text/plain") (textInner text) = some text := by
  have he : textInner text =
      (lit "Content-Type: text/plain; charset=\"UTF-8\"" ++ crlf ++
        lit "Content-Transfer-Encoding: 7bit") ++ (crlf ++ crlf) ++ text := by
    simp [textInner, List.append_assoc]
  rw [he]
  exact parseTextPart_eq _ _ _
    (lit "text/plain; charset=\"UTF-8\"") (by decide) (by decide) (by decide)

theorem parseText_htmlInner (html : Str) :
    parseTextPart (lit "text/html") (htmlInner html) = some html := by
  have he : htmlInner html =
      (lit "Content-Type: text/html; charset=\"UTF-8\"" ++ crlf ++
        lit "Content-Transfer-Encoding: 7bit") ++ (crlf ++ crlf) ++ html := by
    simp [htmlInner, List.append_assoc]
  rw [he]
  exact parseTextPart_eq _ _ _
    (lit "text/html; charset=\"UTF-8\"") (by decide) (by decide) (by decide)

theorem parseAlternative_eq (ba text html : Str)
    (hba : ∀ c ∈ ba, ¬(c = '"'))
    (hcl1 : cleanBefore (crlf ++ crlf) (ctLineAlt ba) = true)
    (hcl2 : noOccAll crlf (ctLineAlt ba) = true)
    (hcl3 : cleanBefore (crlf ++ lit "--" ++ ba) (crlf ++ textInner text) =
      true)
    (hcl4 : cleanBefore (crlf ++ lit "--" ++ ba) (crlf ++ htmlInner html) =
      true) :
    parseAlternative (altInner ba text html) = some (text, html) := by
  have hre : altInner ba text html =
      ctLineAlt ba ++ (crlf ++ crlf) ++
        (lit "--" ++ ba ++ crlf ++ textInner text ++ crlf ++
         lit "--" ++ ba ++ crlf ++ htmlInner html ++ crlf ++
         lit "--" ++ ba ++ lit "--") := by
    simp [altInner, List.append_assoc]
  have hsp : splitParts crlf (ctLineAlt ba) = [ctLineAlt ba] :=
    splitParts_single (breakOnSeq_none hcl2)
  have hsm : splitMultipart ba
      (lit "--" ++ ba ++ crlf ++ textInner text ++ crlf ++
       lit "--" ++ ba ++ crlf ++ htmlInner html ++ crlf ++
       lit "--" ++ ba ++ lit "--") =
      some [textInner text, htmlInner html] := by
    refine splitMultipart_eq ba _ [textInner text, htmlInner html]
      ?_ ?_
    · exact altBody_decomp ba text html
    · intro m hm
      rcases List.mem_cons.mp hm with rfl | hm2
      · exact hcl3
      rcases List.mem_cons.mp hm2 with rfl | hm3
      · exact hcl4
      · simp at hm3
  unfold parseAlternative
  rw [hre, parsePart_eq hcl1]
  simp only [Option.pure_def, Option.bind_eq_bind, Option.some_bind]
  rw [hsp, headerValue_ct_alt ba]
  simp only [Option.pure_def, Option.bind_eq_bind, Option.some_bind]
  rw [ctAlt_value ba,
    extractParam_eq (lit "boundary=\"") (lit "multipart/alternative; ")
      ba [] (by decide) (by decide) hba]
  simp only [Option.pure_def, Option.bind_eq_bind, Option.some_bind]
  rw [hsm]
  simp only [Option.pure_def, Option.bind_eq_bind, Option.some_bind]
  rw [parseText_textInner]
  simp only [Option.pure_def, Option.bind_eq_bind, Option.some_bind]
  rw [parseText_htmlInner]
  rfl

theorem dropSpaces_no_lead (ct rest : Str) (h : ct.head? ≠ some ' ')
    (hr : rest.head? = some ';') :
    dropSpaces (ct ++ rest) = ct ++ rest := by
  cases ct with
  | nil =>
    cases rest with
    | nil => simp at hr
    | cons r rs =>
      have hr2 : r = ';' := by simpa using hr
      subst hr2
      show dropSpaces (';' :: rs) = ';' :: rs
      exact dropSpaces_ne (by decide) rs
  | cons c cs =>
    have hc : (c == ' ') = false := by
      cases hcc : c == ' '
      · rfl
      · exfalso
        have hce : c = ' ' := by simpa using hcc
        exact h (by simp [hce])
    show dropSpaces (c :: (cs ++ rest)) = c :: (cs ++ rest)
    exact dropSpaces_ne hc _

theorem attHdrs_split (a : MimeAttachment)
    (hc1 : cleanBefore crlf (attCtLine a) = true)
    (hc2 : cleanBefore crlf (attCdLine a) = true) :
    splitParts crlf (attHdrs a) =
      [attCtLine a, attCdLine a,
       lit "Content-Transfer-Encoding: base64"] := by
  have hne : crlf ≠ [] := by simp [crlf]
  have he : attHdrs a = attCtLine a ++ crlf ++
      (attCdLine a ++ crlf ++ lit "Content-Transfer-Encoding: base64") := by
    simp [attHdrs, List.append_assoc]
  rw [he, splitParts_cons _ _ hne (noOccBefore_of_cleanBefore _ hc1),
    splitParts_cons _ _ hne (noOccBefore_of_cleanBefore _ hc2),
    splitParts_single (breakOnSeq_none (by decide))]

theorem parseAttachment_eq (a : MimeAttachment)
    (hcA : cleanBefore (crlf ++ crlf) (attHdrs a) = true)
    (hc1 : cleanBefore crlf (attCtLine a) = true)
    (hc2 : cleanBefore crlf (attCdLine a) = true)
    (hcn : cleanBefore (lit "; name=\"") a.contentType = true)
    (hhd : a.contentType.head? ≠ some ' ')
    (hbytes : ∀ b ∈ a.data, b < 256) :
    parseAttachment (attInner a) =
      some ⟨safeNameOf a.filename, a.contentType, a.data⟩ := by
  have he1 : attCtLine a = lit "Content-Type: " ++
      (a.contentType ++ (lit "; name=\"" ++
        (safeNameOf a.filename ++ lit "\""))) := by
    simp [attCtLine, List.append_assoc]
  have he2 : attCdLine a = lit "Content-Disposition: attachment; filename=\"" ++
      (safeNameOf a.filename ++ lit "\"") := by
    simp [attCdLine, List.append_assoc]
  have hct : (lit "Content-Type:").isPrefixOf (attCtLine a) = true := by
    rw [he1, isPrefixOf_append_of_le _ (by decide)]
    decide
  have hcdct : (lit "Content-Disposition:").isPrefixOf (attCtLine a) =
      false := by
    rw [he1]
    exact isPrefixOf_append_false _ (by decide)
  have hcdcd : (lit "Content-Disposition:").isPrefixOf (attCdLine a) =
      true := by
    rw [he2, isPrefixOf_append_of_le _ (by decide)]
    decide
  have hhv1 : headerValue (lit "Content-Type:")
      [attCtLine a, attCdLine a, lit "Content-Transfer-Encoding: base64"] =
      some (a.contentType ++ (lit "; name=\"" ++
        (safeNameOf a.filename ++ lit "\""))) := by
    unfold headerValue
    simp only [List.find?, hct]
    show some (dropSpaces ((attCtLine a).drop 13)) = _
    rw [he1, List.drop_append_of_le_length (by decide)]
    show some (dropSpaces (' ' :: (a.contentType ++ (lit "; name=\"" ++
      (safeNameOf a.filename ++ lit "\""))))) = _
    rw [dropSpaces_space, dropSpaces_no_lead a.contentType
      (lit "; name=\"" ++ (safeNameOf a.filename ++ lit "\"")) hhd
      (by rfl)]
  have hhv2 : headerValue (lit "Content-Disposition:")
      [attCtLine a, attCdLine a, lit "Content-Transfer-Encoding: base64"] =
      some (lit "attachment; filename=\"" ++
        (safeNameOf a.filename ++ lit "\"")) := by
    unfold headerValue
    simp only [List.find?, hcdct, hcdcd]
    show some (dropSpaces ((attCdLine a).drop 20)) = _
    rw [he2, List.drop_append_of_le_length (by decide)]
    show some (dropSpaces (' ' :: (lit "attachment; filename=\"" ++
      (safeNameOf a.filename ++ lit "\"")))) = _
    rw [dropSpaces_space]
    show some (dropSpaces ('a' :: (lit "ttachment; filename=\"" ++
      (safeNameOf a.filename ++ lit "\"")))) = _
    rw [dropSpaces_ne (by decide)]
    rfl
  have hfn : extractParam (lit "filename=\"")
      (lit "attachment; filename=\"" ++
        (safeNameOf a.filename ++ lit "\"")) =
      some (safeNameOf a.filename) := by
    have hr : lit "attachment; filename=\"" ++
        (safeNameOf a.filename ++ lit "\"") =
        lit "attachment; " ++ lit "filename=\"" ++
          (safeNameOf a.filename ++ '"' :: []) := rfl
    rw [hr]
    exact extractParam_eq _ _ _ [] (by decide) (by decide)
      (safeNameOf_no_quote a.filename)
  have hbr : breakOnSeq (lit "; name=\"")
      (a.contentType ++ (lit "; name=\"" ++
        (safeNameOf a.filename ++ lit "\""))) =
      some (a.contentType, safeNameOf a.filename ++ lit "\"") := by
    have hr2 : a.contentType ++ (lit "; name=\"" ++
        (safeNameOf a.filename ++ lit "\"")) =
        a.contentType ++ lit "; name=\"" ++
          (safeNameOf a.filename ++ lit "\"") := (List.append_assoc ..).symm
    rw [hr2]
    exact breakOnSeq_at _ _ (by decide) (noOccBefore_of_cleanBefore _ hcn)
  have hb64 : base64Decode (stripCRLF (chunk76 (base64Encode a.data))) =
      some a.data := by
    rw [stripCRLF_chunk76 (base64Encode_clean a.data),
      base64_roundtrip a.data hbytes]
  have he0 : attInner a = attHdrs a ++ (crlf ++ crlf) ++
      chunk76 (base64Encode a.data) := by
    simp [attInner, List.append_assoc]
  unfold parseAttachment
  rw [he0, parsePart_eq hcA]
  simp only [Option.pure_def, Option.bind_eq_bind, Option.some_bind]
  rw [attHdrs_split a hc1 hc2, hhv1]
  simp only [Option.pure_def, Option.bind_eq_bind, Option.some_bind]
  rw [hhv2]
  simp only [Option.pure_def, Option.bind_eq_bind, Option.some_bind]
  rw [hfn]
  simp only [Option.pure_def, Option.bind_eq_bind, Option.some_bind]
  rw [hbr]
  simp only [Option.pure_def, Option.bind_eq_bind, Option.some_bind]
  rw [hb64]
  rfl

theorem mapM_option_some_map {α β γ : Type} (f : β → Option γ) (h : α → β)
    (g : α → γ) :
    ∀ l : List α, (∀ a ∈ l, f (h a) = some (g a)) →
      (l.map h).mapM f = some (l.map g) := by
  intro l
  induction l with
  | nil => intro _; rfl
  | cons x xs ih =>
    intro hf
    rw [List.map_cons, List.mapM_cons, hf x (by simp),
      ih (fun a ha => hf a (by simp [ha]))]
    rfl

/-- C3 (amended): parsing the raw message produced by `buildMimeMixed`
(index.mjs 858-891) recovers exactly the supplied text part, html part and
attachment list (filename, content type, bytes), provided the supplied
strings are clean — no stray CRLF/boundary/terminator sequences inside
headers or bodies, no `"` in the boundaries — and the attachment filenames
contain no `"` (the builder rewrites `"` to a single quote in filenames, so
quoted names do not round-trip; see the counterexample). -/
theorem buildMime_parse_roundtrip (frm toAddr subject text html : Str)
    (atts : List MimeAttachment) (bm ba : Str)
    (hclean : mimeClean frm toAddr subject text html atts bm ba)
    (hfq : ∀ a ∈ atts, ∀ c ∈ a.filename, ¬(c = '"')) :
    parseMime (buildMimeMixed frm toAddr subject text html atts bm ba) =
      some ⟨text, html,
        atts.map (fun a => ⟨a.filename, a.contentType, a.data⟩)⟩ := by
  obtain ⟨h1, h2, h3, h4, h5, hbmq, hbaq, hAlt, hAtt, h10, h11, h12, h13,
    hA⟩ := hclean
  have hb : buildMimeMixed frm toAddr subject text html atts bm ba =
      hdrBlock frm toAddr subject bm ++ (crlf ++ crlf) ++
        (altSection bm ba text html ++
          ((atts.map (attachmentSection bm)).flatten ++
            (lit "--" ++ bm ++ lit "--"))) := by
    simp [buildMimeMixed, hdrBlock, List.append_assoc]
  have hsm : splitMultipart bm
      (altSection bm ba text html ++
        ((atts.map (attachmentSection bm)).flatten ++
          (lit "--" ++ bm ++ lit "--"))) =
      some (altInner ba text html :: atts.map attInner) := by
    refine splitMultipart_eq bm _ (altInner ba text html :: atts.map attInner)
      ?_ ?_
    · have hbd := body_decomp bm ba text html atts
      simp only [List.map_cons, List.map_map]
      have hcomp : ((fun m => crlf ++ m) ∘ attInner) =
          fun a => crlf ++ attInner a := rfl
      rw [hcomp]
      exact hbd
    · intro m hm
      rcases List.mem_cons.mp hm with rfl | hm2
      · exact hAlt
      · obtain ⟨a, haa, rfl⟩ := List.mem_map.mp hm2
        exact hAtt a haa
  have hmm : (atts.map attInner).mapM parseAttachment =
      some (atts.map (fun a =>
        (⟨safeNameOf a.filename, a.contentType, a.data⟩ :
          ParsedAttachment))) := by
    refine mapM_option_some_map parseAttachment attInner _ atts ?_
    intro a ha
    obtain ⟨ha1, ha2, ha3, ha4, ha5, ha6⟩ := hA a ha
    exact parseAttachment_eq a ha1 ha2 ha3 ha4 ha5 ha6
  have hmapeq : atts.map (fun a =>
      (⟨safeNameOf a.filename, a.contentType, a.data⟩ : ParsedAttachment)) =
      atts.map (fun a => ⟨a.filename, a.contentType, a.data⟩) :=
    List.map_congr_left (fun a ha => by rw [safeNameOf_id (hfq a ha)])
  unfold parseMime
  rw [hb, parsePart_eq h1]
  simp only [Option.pure_def, Option.bind_eq_bind, Option.some_bind]
  rw [hdrBlock_split frm toAddr subject bm h2 h3 h4 h5,
    headerValue_ct_five frm toAddr subject bm]
  simp only [Option.pure_def, Option.bind_eq_bind, Option.some_bind]
  rw [ctMixed_value bm,
    extractParam_eq (lit "boundary=\"") (lit "multipart/mixed; ") bm []
      (by decide) (by decide) hbmq]
  simp only [Option.pure_def, Option.bind_eq_bind, Option.some_bind]
  rw [hsm]
  simp only [Option.pure_def, Option.bind_eq_bind, Option.some_bind]
  rw [parseAlternative_eq ba text html hbaq h10 h11 h12 h13]
  simp only [Option.pure_def, Option.bind_eq_bind, Option.some_bind]
  rw [hmm]
  simp only [Option.pure_def, Option.bind_eq_bind, Option.some_bind]
  rw [hmapeq]

/-- C3 counterexample: a filename containing a double quote does not
round-trip. The builder substitutes a single quote for each `"` in the
filename (index.mjs line 878), so the parsed attachment carries the
rewritten name, not the supplied one. -/
theorem buildMime_roundtrip_quote_cex :
    parseMime (buildMimeMixed (lit "a@b") (lit "c@d") (lit "Hi") (lit "T")
        (lit "<p>Hi</p>") [⟨lit "a\"b.txt", lit "text/plain", [72, 105]⟩]
        (lit "m1") (lit "a1")) =
      some ⟨lit "T", lit "<p>Hi</p>",
        [⟨lit "a'b.txt", lit "text/plain", [72, 105]⟩]⟩ ∧
    (lit "a'b.txt" : Str) ≠ lit "a\"b.txt" :=
  ⟨by decide, by decide⟩

theorem buildMime_parse_roundtrip_witness :
    mimeClean (lit "a@b") (lit "c@d") (lit "Hi") (lit "T") (lit "<p>Hi</p>")
        [⟨lit "f.txt", lit "text/plain", [72, 105]⟩] (lit "m1") (lit "a1") ∧
    parseMime (buildMimeMixed (lit "a@b") (lit "c@d") (lit "Hi") (lit "T")
        (lit "<p>Hi</p>") [⟨lit "f.txt", lit "text/plain", [72, 105]⟩]
        (lit "m1") (lit "a1")) =
      some ⟨lit "T", lit "<p>Hi</p>",
        [⟨lit "f.txt", lit "text/plain", [72, 105]⟩]⟩ :=
  ⟨by unfold mimeClean; decide, buildMime_parse_roundtrip (lit "a@b")
    (lit "c@d") (lit "Hi") (lit "T") (lit "<p>Hi</p>")
    [⟨lit "f.txt", lit "text/plain", [72, 105]⟩]
    (lit "m1") (lit "a1") (by unfold mimeClean; decide) (by decide)⟩
